import Mathlib

/-!
# Verification of the Stock-Backtesting core

A shallow embedding of the core components of the Stock-Backtesting
repository (`src/core/src/*.cpp`), together with theorems settling the
specification claims about them.

Modelling conventions:
* C++ `double` is modelled as `ℚ` (exact rational arithmetic),
  `int64_t` as `ℤ`, `std::size_t` as `ℕ`, `int` quantities as `ℤ`.
* `std::vector` is modelled as `List`, `std::optional` as `Option`.
* Fallible parsing returns `Option`.
All definitions are executable.
-/

namespace Stockbt

/-! ## Data model (`src/core/include/backtest/types.hpp`) -/

/-- `stockbt::DateFormat`. -/
inductive DateFormat where
  | Iso
  | Mdy
  | Dmy
deriving DecidableEq, Repr

/-- `stockbt::Candle`: `{ts, o, h, l, c, v}`. -/
structure Candle where
  ts : ℤ
  o : ℚ
  h : ℚ
  l : ℚ
  c : ℚ
  v : ℚ
deriving DecidableEq, Repr, Inhabited

/-- `stockbt::SeriesPoint` (from `downsampling.hpp`): `{ts, value}`. -/
structure SeriesPoint where
  ts : ℤ
  value : ℚ
deriving DecidableEq, Repr, Inhabited

/-- `stockbt::BucketMinMax` (from `downsampling.hpp`). -/
structure BucketMinMax where
  min_ts : ℤ
  min_value : ℚ
  max_ts : ℤ
  max_value : ℚ
deriving DecidableEq, Repr, Inhabited

/-! ## Downsampler (`src/core/src/downsampling.cpp`) -/

/-- One iteration of the inner scan of `downsample_bucket_min_max`:
`min_idx` moves to `i` when `points[i].value < points[min_idx].value`,
`max_idx` moves to `i` when `points[i].value > points[max_idx].value`
(strict comparisons, so the first occurrence is kept on ties). -/
def scanStep (points : List SeriesPoint) (acc : ℕ × ℕ) (i : ℕ) : ℕ × ℕ :=
  ((if (points.getD i default).value < (points.getD acc.1 default).value
      then i else acc.1),
   (if (points.getD i default).value > (points.getD acc.2 default).value
      then i else acc.2))

/-- The inner scan of `downsample_bucket_min_max` over the `cnt` indices
`start + 1, …, start + cnt`, starting from `min_idx = max_idx = start`. -/
def scanAux (points : List SeriesPoint) (start cnt : ℕ) : ℕ × ℕ :=
  (List.range' (start + 1) cnt).foldl (scanStep points) (start, start)

/-- The inner loop of `downsample_bucket_min_max`: scan the bucket
`[start, stop)` and return `(min_idx, max_idx)`. -/
def scanBucket (points : List SeriesPoint) (start stop : ℕ) : ℕ × ℕ :=
  scanAux points start (stop - (start + 1))

/-- `bucket_count = max(1, min(pixel_width, display_cap / 2))` from
`downsample_bucket_min_max` (integer division). -/
def bucketCount (pixel_width display_cap : ℕ) : ℕ :=
  max 1 (min pixel_width (display_cap / 2))

/-- Start index of bucket `b`: `(b * n) / bucket_count`. -/
def bucketStart (n k b : ℕ) : ℕ := (b * n) / k

/-- One-past-the-end index of bucket `b`: `((b + 1) * n) / bucket_count`. -/
def bucketStop (n k b : ℕ) : ℕ := ((b + 1) * n) / k

/-- The record `downsample_bucket_min_max` pushes for bucket `b` when the
bucket is non-empty (`start < stop`), holding the timestamps/values at
the scanned min/max indices. -/
def bucketRecord (points : List SeriesPoint) (start stop : ℕ) : BucketMinMax :=
  ⟨(points.getD (scanBucket points start stop).1 default).ts,
   (points.getD (scanBucket points start stop).1 default).value,
   (points.getD (scanBucket points start stop).2 default).ts,
   (points.getD (scanBucket points start stop).2 default).value⟩

/-- `stockbt::downsample_bucket_min_max` (`downsampling.cpp`).
Empty input or `pixel_width == 0` returns the empty list; a series not
longer than `display_cap` is returned verbatim as degenerate extremes;
otherwise the indices are split into `bucketCount` buckets with
boundaries at `(b * n) / bucket_count`, and each non-empty bucket
contributes the record of its min/max scan. -/
def downsample_bucket_min_max (points : List SeriesPoint)
    (pixel_width display_cap : ℕ) : List BucketMinMax :=
  if points = [] ∨ pixel_width = 0 then []
  else if points.length ≤ display_cap then
    points.map (fun p => ⟨p.ts, p.value, p.ts, p.value⟩)
  else
    (List.range (bucketCount pixel_width display_cap)).filterMap (fun b =>
      if bucketStart points.length (bucketCount pixel_width display_cap) b ≥
          bucketStop points.length (bucketCount pixel_width display_cap) b
        then none
      else
        some (bucketRecord points
          (bucketStart points.length (bucketCount pixel_width display_cap) b)
          (bucketStop points.length (bucketCount pixel_width display_cap) b)))

/-- The property (in the words of the specification, §4.4) that a record
holds a bucket's minimum and maximum value, the index of each taken at
its first occurrence within the bucket `[start, stop)`. -/
def IsBucketExtremes (points : List SeriesPoint) (start stop : ℕ)
    (r : BucketMinMax) : Prop :=
  (∃ mi, start ≤ mi ∧ mi < stop ∧
    r.min_ts = (points.getD mi default).ts ∧
    r.min_value = (points.getD mi default).value ∧
    (∀ j, start ≤ j → j < stop →
      (points.getD mi default).value ≤ (points.getD j default).value) ∧
    (∀ j, start ≤ j → j < mi →
      (points.getD mi default).value < (points.getD j default).value)) ∧
  (∃ ma, start ≤ ma ∧ ma < stop ∧
    r.max_ts = (points.getD ma default).ts ∧
    r.max_value = (points.getD ma default).value ∧
    (∀ j, start ≤ j → j < stop →
      (points.getD j default).value ≤ (points.getD ma default).value) ∧
    (∀ j, start ≤ j → j < ma →
      (points.getD j default).value < (points.getD ma default).value))

/-! ## TimeCodec (`src/core/src/time_utils.cpp`)

The parsers are built on `std::sscanf` with the formats
`"%d-%d-%d %d:%d:%d"`, `"%d-%d-%dT%d:%d:%d"` and `"%d/%d/%d %d:%d:%d"`.
We model `sscanf` faithfully for these formats: a `%d` conversion skips
C whitespace, accepts an optional sign and a maximal non-empty digit
run; a literal character must match exactly; the count of successful
conversions before the first failure is returned (integer overflow of
`%d` is not modelled). -/

/-- C `isspace` in the default locale. -/
def isSpaceChar (c : Char) : Bool :=
  c == ' ' || c == '\t' || c == '\n' || c == '\x0b' || c == '\x0c' || c == '\r'

/-- Value of a non-empty digit run. -/
def digitsVal (l : List Char) : Int :=
  l.foldl (fun a c => a * 10 + ((c.toNat : Int) - 48)) 0

/-- `sscanf`'s `%d`: skip whitespace, optional sign, at least one digit;
returns the value and the unconsumed input. -/
def scanInt (cs : List Char) : Option (Int × List Char) :=
  let cs1 := cs.dropWhile (fun c => isSpaceChar c)
  match cs1 with
  | '-' :: rest =>
    if (rest.takeWhile Char.isDigit) = [] then none
    else some (-(digitsVal (rest.takeWhile Char.isDigit)),
               rest.dropWhile Char.isDigit)
  | '+' :: rest =>
    if (rest.takeWhile Char.isDigit) = [] then none
    else some (digitsVal (rest.takeWhile Char.isDigit),
               rest.dropWhile Char.isDigit)
  | _ =>
    if (cs1.takeWhile Char.isDigit) = [] then none
    else some (digitsVal (cs1.takeWhile Char.isDigit),
               cs1.dropWhile Char.isDigit)

/-- A literal character in an `sscanf` format: must match exactly. -/
def litChar (c : Char) : List Char → Option (List Char)
  | [] => none
  | x :: rest => if x = c then some rest else none

/-- Outcome of one `sscanf` call for the six-field formats: the number
of conversions assigned before the first failure, and the six parsed
values (unassigned ones stay `0`, as the C locals are zero-initialized). -/
structure ScanResult where
  count : ℕ
  v1 : Int
  v2 : Int
  v3 : Int
  v4 : Int
  v5 : Int
  v6 : Int
deriving DecidableEq, Repr

/-- The `"%d<sep>%d<sep>%d"` date prefix shared by every format: either
the partial record of a failure (`count < 3`) or the three values plus
the unconsumed input. -/
def scanDate (sep : Char) (cs : List Char) : ScanResult ⊕ (Int × Int × Int × List Char) :=
  match scanInt cs with
  | none => Sum.inl ⟨0, 0, 0, 0, 0, 0, 0⟩
  | some (a, r1) =>
    match litChar sep r1 with
    | none => Sum.inl ⟨1, a, 0, 0, 0, 0, 0⟩
    | some r2 =>
      match scanInt r2 with
      | none => Sum.inl ⟨1, a, 0, 0, 0, 0, 0⟩
      | some (b, r3) =>
        match litChar sep r3 with
        | none => Sum.inl ⟨2, a, b, 0, 0, 0, 0⟩
        | some r4 =>
          match scanInt r4 with
          | none => Sum.inl ⟨2, a, b, 0, 0, 0, 0⟩
          | some (c, r5) => Sum.inr (a, b, c, r5)

/-- The `" %d:%d:%d"` (for `timeSep = none`; the whitespace directive is
absorbed by `%d`'s own whitespace skip) or `"T%d:%d:%d"` (for
`timeSep = some 'T'`) time suffix, run after a complete date prefix. -/
def scanTime (timeSep : Option Char) (a b c : Int) (r5 : List Char) : ScanResult :=
  let timeInput := match timeSep with
    | none => some r5
    | some t => litChar t r5
  match timeInput with
  | none => ⟨3, a, b, c, 0, 0, 0⟩
  | some r6 =>
    match scanInt r6 with
    | none => ⟨3, a, b, c, 0, 0, 0⟩
    | some (hh, r7) =>
      match litChar ':' r7 with
      | none => ⟨4, a, b, c, hh, 0, 0⟩
      | some r8 =>
        match scanInt r8 with
        | none => ⟨4, a, b, c, hh, 0, 0⟩
        | some (mi, r9) =>
          match litChar ':' r9 with
          | none => ⟨5, a, b, c, hh, mi, 0⟩
          | some r10 =>
            match scanInt r10 with
            | none => ⟨5, a, b, c, hh, mi, 0⟩
            | some (ss, _) => ⟨6, a, b, c, hh, mi, ss⟩

/-- One `sscanf` call for the format `"%d<sep>%d<sep>%d<time>"`. -/
def runScan (sep : Char) (timeSep : Option Char) (cs : List Char) : ScanResult :=
  match scanDate sep cs with
  | Sum.inl r => r
  | Sum.inr (a, b, c, r5) => scanTime timeSep a b c r5

/-- `std::tm` restricted to the fields the code assigns
(`tm_year` counts from 1900, `tm_mon` from 0). -/
structure TmValue where
  tm_year : Int
  tm_mon : Int
  tm_mday : Int
  tm_hour : Int
  tm_min : Int
  tm_sec : Int
deriving DecidableEq, Repr

/-- Builds the `std::tm` exactly as `parse_iso` does from a scan with
`count ≥ 3`: the time fields are used only when all six were parsed
(`parsed >= 6`), otherwise they are zeroed. -/
def tmOfScanIso (r : ScanResult) : TmValue :=
  ⟨r.v1 - 1900, r.v2 - 1, r.v3,
   if 6 ≤ r.count then r.v4 else 0,
   if 6 ≤ r.count then r.v5 else 0,
   if 6 ≤ r.count then r.v6 else 0⟩

/-- Builds the `std::tm` exactly as `parse_slash` does: the field order
of day and month depends on `month_first`. -/
def tmOfScanSlash (month_first : Bool) (r : ScanResult) : TmValue :=
  ⟨r.v3 - 1900,
   (if month_first then r.v1 else r.v2) - 1,
   (if month_first then r.v2 else r.v1),
   if 6 ≤ r.count then r.v4 else 0,
   if 6 ≤ r.count then r.v5 else 0,
   if 6 ≤ r.count then r.v6 else 0⟩

/-- `is_tm_in_range` (`time_utils.cpp`): month 0–11, day 1–31,
hour 0–23, minute 0–59, second 0–60 (leap-second tolerance). -/
def is_tm_in_range (t : TmValue) : Bool :=
  0 ≤ t.tm_mon && t.tm_mon ≤ 11 && 1 ≤ t.tm_mday && t.tm_mday ≤ 31 &&
  0 ≤ t.tm_hour && t.tm_hour ≤ 23 && 0 ≤ t.tm_min && t.tm_min ≤ 59 &&
  0 ≤ t.tm_sec && t.tm_sec ≤ 60

/-- Days from 1970-01-01 to the given proleptic-Gregorian civil date
(standard Julian-day-number formula with floor division); out-of-month
day values roll over into the following months, exactly as `timegm`
normalizes them. -/
def daysFromCivil (y m d : Int) : Int :=
  let a := (14 - m).fdiv 12
  let y2 := y + 4800 - a
  let m2 := m + 12 * a - 3
  d + (153 * m2 + 2).fdiv 5 + 365 * y2 + y2.fdiv 4 - y2.fdiv 100 +
    y2.fdiv 400 - 32045 - 2440588

/-- Epoch seconds computed by `timegm` for an already range-checked
`std::tm` (UTC calendar rules, no local time zone); seconds past the
minute and days past the month normalize forward. -/
def timegmModel (t : TmValue) : Int :=
  daysFromCivil (t.tm_year + 1900) (t.tm_mon + 1) t.tm_mday * 86400 +
    t.tm_hour * 3600 + t.tm_min * 60 + t.tm_sec

/-- `tm_to_epoch_utc` (`time_utils.cpp`): range check, then `timegm`,
whose `-1` return is treated as failure (which also rejects the
legitimate instant 1969-12-31T23:59:59Z). -/
def tm_to_epoch_utc (t : TmValue) : Option Int :=
  if is_tm_in_range t then
    if timegmModel t = -1 then none else some (timegmModel t)
  else none

/-- `parse_iso` (`time_utils.cpp`): try `"%d-%d-%d %d:%d:%d"`; only when
fewer than three fields were assigned, retry with
`"%d-%d-%dT%d:%d:%d"`; fail when the retry also assigns fewer than
three. -/
def parse_iso (text : String) : Option TmValue :=
  let r1 := runScan '-' none text.toList
  let r := if r1.count < 3 then runScan '-' (some 'T') text.toList else r1
  if r.count < 3 then none else some (tmOfScanIso r)

/-- `parse_slash` (`time_utils.cpp`): `"%d/%d/%d %d:%d:%d"` with the
month/day order selected by `month_first`. -/
def parse_slash (month_first : Bool) (text : String) : Option TmValue :=
  let r := runScan '/' none text.toList
  if r.count < 3 then none else some (tmOfScanSlash month_first r)

/-- `stockbt::parse_timestamp_utc` (`time_utils.cpp`). -/
def parse_timestamp_utc (text : String) (fmt : DateFormat) : Option Int :=
  match (match fmt with
         | DateFormat.Iso => parse_iso text
         | DateFormat.Mdy => parse_slash true text
         | DateFormat.Dmy => parse_slash false text) with
  | none => none
  | some t => tm_to_epoch_utc t

/-- The scan whose fields `parse_timestamp_utc` ends up using for a
given format (for ISO this accounts for the `'T'` retry). -/
def scanOf (fmt : DateFormat) (cs : List Char) : ScanResult :=
  match fmt with
  | DateFormat.Iso =>
    let r1 := runScan '-' none cs
    if r1.count < 3 then runScan '-' (some 'T') cs else r1
  | DateFormat.Mdy => runScan '/' none cs
  | DateFormat.Dmy => runScan '/' none cs

/-- The `std::tm` built from the scan for a given format. -/
def tmOf (fmt : DateFormat) (r : ScanResult) : TmValue :=
  match fmt with
  | DateFormat.Iso => tmOfScanIso r
  | DateFormat.Mdy => tmOfScanSlash true r
  | DateFormat.Dmy => tmOfScanSlash false r

/-! ## CsvImporter (`src/core/src/csv_importer.cpp`)

`import_ohlcv_csv` takes a file path in C++; the embedding takes the
list of lines `std::getline` would produce (the unreadable-file branch
is therefore not modelled). -/

/-- `trim` (`csv_importer.cpp`): strip leading and trailing
`isspace` characters. -/
def trimChars (l : List Char) : List Char :=
  ((l.dropWhile (fun c => isSpaceChar c)).reverse.dropWhile
    (fun c => isSpaceChar c)).reverse

/-- `trim` on strings. -/
def trimString (s : String) : String := String.mk (trimChars s.data)

/-- Strip one pair of enclosing angle brackets, as `normalize_header`
does (`front == '<' && back == '>'` on a non-empty string). -/
def stripAngleBrackets (l : List Char) : List Char :=
  if l ≠ [] ∧ l.head? = some '<' ∧ l.getLast? = some '>' then
    (l.drop 1).dropLast
  else l

/-- `normalize_header` (`csv_importer.cpp`): trim, strip one `<...>`
pair, trim again, lowercase (`std::tolower`; headers are ASCII). -/
def normalize_header (s : String) : String :=
  String.mk ((trimChars (stripAngleBrackets (trimChars s.data))).map
    Char.toLower)

/-- `parse_csv_line`'s character loop: split on unquoted commas,
toggle quoting on `'"'`, turn a doubled `'""'` inside quotes into a
literal quote; each field is trimmed. `cur` holds the current field
reversed. -/
def parseCsvAux : List Char → Bool → List Char → List String → List String
  | [], _, cur, acc => acc ++ [trimString (String.mk cur.reverse)]
  | '"' :: '"' :: rest, true, cur, acc => parseCsvAux rest true ('"' :: cur) acc
  | '"' :: rest, true, cur, acc => parseCsvAux rest false cur acc
  | '"' :: rest, false, cur, acc => parseCsvAux rest true cur acc
  | ',' :: rest, true, cur, acc => parseCsvAux rest true (',' :: cur) acc
  | ',' :: rest, false, cur, acc =>
    parseCsvAux rest false [] (acc ++ [trimString (String.mk cur.reverse)])
  | c :: rest, inQ, cur, acc => parseCsvAux rest inQ (c :: cur) acc

/-- `parse_csv_line` (`csv_importer.cpp`). -/
def parse_csv_line (line : String) : List String :=
  parseCsvAux line.data false [] []

/-- `10^e` for a signed exponent. -/
def pow10 (e : Int) : ℚ :=
  if 0 ≤ e then ((10 : ℚ) ^ e.toNat) else 1 / ((10 : ℚ) ^ (-e).toNat)

/-- Exponent part of `strtod`: optional sign then digits, which must
consume the rest of the input (otherwise `strtod`'s end pointer stops
early and `parse_double_strict` rejects the field). -/
def scanExpAll (l : List Char) : Option Int :=
  let p : Int × List Char := match l with
    | '-' :: r => (-1, r)
    | '+' :: r => (1, r)
    | _ => (1, l)
  if p.2.takeWhile Char.isDigit = [] ∨ p.2.dropWhile Char.isDigit ≠ [] then
    none
  else some (p.1 * digitsVal (p.2.takeWhile Char.isDigit))

/-- The textual decomposition `strtod` performs on a full (already
trimmed) decimal field: optional sign, decimal digits with an optional
fractional part (at least one digit overall), optional exponent; the
whole input must be consumed. Returns
`(sign, integer value, fraction value, fraction length, exponent)`.
Hexadecimal floats, `inf`/`nan` forms and `errno`-based range rejection
are not modelled (no imported dataset in the claims uses them). -/
def strtodParse (l : List Char) : Option (Int × Int × Int × ℕ × Int) :=
  let p : Int × List Char := match l with
    | '-' :: r => (-1, r)
    | '+' :: r => (1, r)
    | _ => (1, l)
  let ip := p.2.takeWhile Char.isDigit
  let l2 := p.2.dropWhile Char.isDigit
  let fp := match l2 with
    | '.' :: r => r.takeWhile Char.isDigit
    | _ => []
  let l3 := match l2 with
    | '.' :: r => r.dropWhile Char.isDigit
    | _ => l2
  if ip = [] ∧ fp = [] then none
  else
    match l3 with
    | [] => some (p.1, digitsVal ip, digitsVal fp, fp.length, 0)
    | e :: r =>
      if e = 'e' ∨ e = 'E' then
        match scanExpAll r with
        | some ex => some (p.1, digitsVal ip, digitsVal fp, fp.length, ex)
        | none => none
      else none

/-- The exact rational value of a fully consumed `strtod` field
(the value is kept exact in `ℚ` rather than rounded to binary64). -/
def strtodAll (l : List Char) : Option ℚ :=
  match strtodParse l with
  | none => none
  | some (sg, ip, fp, fpl, ex) =>
    some ((sg : ℚ) * (((ip : ℚ) + (fp : ℚ) / pow10 fpl) * pow10 ex))

/-- `parse_double_strict` (`csv_importer.cpp`): trim, reject the empty
string, then `strtod` with a full-consumption check. -/
def parse_double_strict (text : String) : Option ℚ :=
  let t := trimChars text.data
  if t = [] then none else strtodAll t

/-- `ImportIssue` (`types.hpp`): `line = 0` marks a file-level issue. -/
structure ImportIssue where
  line : ℕ
  message : String
deriving DecidableEq, Repr

/-- `ImportResult` (`types.hpp`). -/
structure ImportResult where
  success : Bool
  partial_success : Bool
  dropped_rows : ℕ
  candles : List Candle
  warnings : List ImportIssue
  errors : List ImportIssue
deriving DecidableEq, Repr

/-- The `unordered_map` of normalized header name to column index,
queried for one name: later duplicate headers overwrite earlier ones,
so the last matching index wins. -/
def headerLookup (headersRaw : List String) (name : String) : Option ℕ :=
  (List.range headersRaw.length).foldl
    (fun acc i =>
      if normalize_header (headersRaw.getD i "") = name then some i else acc)
    none

/-- `find_header_any` (`csv_importer.cpp`): first name of the alias
list that resolves. -/
def find_header_any (headersRaw : List String) : List String → Option ℕ
  | [] => none
  | n :: rest =>
    match headerLookup headersRaw n with
    | some i => some i
    | none => find_header_any headersRaw rest

/-- The resolved columns of a header
(`timestamp`/`dtyyyymmdd`+`time` stay optional, the OHLCV columns are
unconditionally required). -/
structure ColumnMap where
  timestamp_col : Option ℕ
  dt_col : Option ℕ
  tm_col : Option ℕ
  o_col : ℕ
  h_col : ℕ
  l_col : ℕ
  c_col : ℕ
  v_col : ℕ
deriving DecidableEq, Repr

/-- Split date+time columns take precedence in row parsing
(`has_split_datetime` tested first). -/
def ColumnMap.hasSplit (m : ColumnMap) : Bool :=
  m.dt_col.isSome && m.tm_col.isSome

/-- Header resolution of `import_ohlcv_csv`: `none` exactly when the
required-columns condition
`(timestamp OR dtyyyymmdd+time) AND open AND high AND low AND close
AND volume` fails. -/
def resolveColumns (headersRaw : List String) : Option ColumnMap :=
  let timestamp_col := find_header_any headersRaw ["timestamp", "date"]
  let dt_col := find_header_any headersRaw ["dtyyyymmdd"]
  let tm_col := find_header_any headersRaw ["time"]
  let o_col := find_header_any headersRaw ["open"]
  let h_col := find_header_any headersRaw ["high"]
  let l_col := find_header_any headersRaw ["low"]
  let c_col := find_header_any headersRaw ["close"]
  let v_col := find_header_any headersRaw ["volume", "vol"]
  match o_col, h_col, l_col, c_col, v_col with
  | some o, some h, some l, some c, some v =>
    if timestamp_col = none ∧ (dt_col = none ∨ tm_col = none) then none
    else some ⟨timestamp_col, dt_col, tm_col, o, h, l, c, v⟩
  | _, _, _, _, _ => none

/-- Modelled from the spec: `parse_date_time_utc_yyyymmdd_hhmmss` is
declared in `time_utils.hpp` and called by the importer for split
date+time columns, but its definition is missing from the provided
sources. Per §4.1 of the specification: the date is given as
`YYYYMMDD` digits and the time as `HHMMSS` digits, combined into one
instant using UTC calendar rules after range validation; malformed
input fails. -/
def parse_date_time_utc_yyyymmdd_hhmmss (date_text time_text : String) :
    Option Int :=
  let d := date_text.data
  let t := time_text.data
  if d.length = 8 ∧ d.all Char.isDigit ∧ t.length = 6 ∧ t.all Char.isDigit
  then
    tm_to_epoch_utc
      ⟨digitsVal (d.take 4) - 1900,
       digitsVal ((d.drop 4).take 2) - 1,
       digitsVal (d.drop 6),
       digitsVal (t.take 2),
       digitsVal ((t.drop 2).take 2),
       digitsVal (t.drop 4)⟩
  else none

/-- The highest required column index of a row
(`max_index` in `import_ohlcv_csv`). -/
def maxIndex (m : ColumnMap) : ℕ :=
  if m.hasSplit then
    max (max (m.dt_col.getD 0) (m.tm_col.getD 0))
      (max (max m.o_col m.h_col) (max (max m.l_col m.c_col) m.v_col))
  else
    max (if m.timestamp_col.isSome then m.timestamp_col.getD 0
         else m.dt_col.getD 0)
      (max (max m.o_col m.h_col) (max (max m.l_col m.c_col) m.v_col))

/-- The accumulating state of the row loop: surviving candles, per-row
drop issues, and the dropped-row count. -/
structure RowScan where
  validRows : List Candle
  rowIssues : List ImportIssue
  dropped : ℕ
deriving DecidableEq, Repr

/-- Appends a drop for the current line. -/
def dropRow (st : RowScan) (lineNumber : ℕ) (msg : String) : RowScan :=
  ⟨st.validRows, st.rowIssues ++ [⟨lineNumber, msg⟩], st.dropped + 1⟩

/-- One iteration of the row loop of `import_ohlcv_csv`: skip blank
lines; split fields; check the field count against the highest needed
column; parse the timestamp per the header scheme; strictly parse the
five numeric fields; reject non-positive prices and negative volume. -/
def processLine (m : ColumnMap) (fmt : DateFormat) (lineNumber : ℕ)
    (line : String) (st : RowScan) : RowScan :=
  if trimString line = "" then st
  else
    let fields := parse_csv_line line
    if fields.length ≤ maxIndex m then
      dropRow st lineNumber "Dropped row: missing one or more required field values"
    else
      let ts : Option Int :=
        if m.hasSplit then
          parse_date_time_utc_yyyymmdd_hhmmss
            (fields.getD (m.dt_col.getD 0) "") (fields.getD (m.tm_col.getD 0) "")
        else
          parse_timestamp_utc (fields.getD (m.timestamp_col.getD 0) "") fmt
      match ts with
      | none => dropRow st lineNumber "Dropped row: invalid timestamp format"
      | some tsv =>
        match parse_double_strict (fields.getD m.o_col ""),
            parse_double_strict (fields.getD m.h_col ""),
            parse_double_strict (fields.getD m.l_col ""),
            parse_double_strict (fields.getD m.c_col ""),
            parse_double_strict (fields.getD m.v_col "") with
        | some o, some h, some l, some c, some v =>
          if o ≤ 0 ∨ h ≤ 0 ∨ l ≤ 0 ∨ c ≤ 0 then
            dropRow st lineNumber "Dropped row: prices must be > 0"
          else if v < 0 then
            dropRow st lineNumber "Dropped row: volume must be >= 0"
          else ⟨st.validRows ++ [⟨tsv, o, h, l, c, v⟩], st.rowIssues, st.dropped⟩
        | _, _, _, _, _ =>
          dropRow st lineNumber "Dropped row: invalid numeric value"

/-- The row loop over the data lines, with 1-indexed line numbers
continuing after the header. -/
def processRows (m : ColumnMap) (fmt : DateFormat) :
    List String → ℕ → RowScan → RowScan
  | [], _, st => st
  | l :: rest, n, st => processRows m fmt rest (n + 1) (processLine m fmt n l st)

/-- The unsortedness detector of `import_ohlcv_csv`: some adjacent pair
with a strictly smaller timestamp than its predecessor. -/
def hasDescent : List Candle → Bool
  | [] => false
  | [_] => false
  | a :: b :: rest => (b.ts < a.ts : Bool) || hasDescent (b :: rest)

/-- `std::stable_sort` with comparator `a.ts < b.ts`: the unique stable
permutation sorted by non-decreasing `ts`, which insertion sort with
`a.ts ≤ b.ts` computes. -/
def sortRows (l : List Candle) : List Candle :=
  List.insertionSort (fun a b => a.ts ≤ b.ts) l

instance : IsTotal Candle (fun a b => a.ts ≤ b.ts) :=
  ⟨fun a b => le_total a.ts b.ts⟩

instance : IsTrans Candle (fun a b => a.ts ≤ b.ts) :=
  ⟨fun _ _ _ h1 h2 => le_trans h1 h2⟩

/-- The deduplication loop of `import_ohlcv_csv` with the output kept
reversed (`push_back` = cons, `back()` = head, replacing `back()` =
replacing the head): a row with the same timestamp as the last kept row
overwrites it and is counted. -/
def dedupRevLoop : List Candle → List Candle → ℕ → (List Candle × ℕ)
  | [], acc, n => (acc.reverse, n)
  | c :: rest, acc, n =>
    match acc with
    | [] => dedupRevLoop rest [c] n
    | b :: accTail =>
      if b.ts = c.ts then dedupRevLoop rest (c :: accTail) (n + 1)
      else dedupRevLoop rest (c :: b :: accTail) n

/-- The missing-columns file error message. -/
def missingColumnsMsg : String :=
  "Missing required columns. Required: Date/Timestamp OR DTYYYYMMDD+TIME, Open, High, Low, Close, Volume/VOL"

/-- The unsorted-timestamps warning message. -/
def unsortedMsg : String :=
  "Timestamps were unsorted. Data was sorted ascending."

/-- The duplicate-timestamps warning message for a given count. -/
def duplicateMsg (n : ℕ) : String :=
  "Duplicate timestamps detected. Kept last occurrence for " ++
    toString n ++ " row(s)."

/-- The zero-valid-rows file error message. -/
def zeroValidRowsMsg : String :=
  "Import failed: zero valid rows remain after filtering"

/-- The post-filter phase of `import_ohlcv_csv`, given the row-loop
outcome: zero survivors fail the import with the file-level error
followed by every row issue as errors; otherwise detect descents,
stable-sort, deduplicate keeping the last occurrence, emit the
file-level warnings, and surface the row issues as warnings exactly
when some row was dropped. -/
def finalizeImport (scan : RowScan) : ImportResult :=
  if scan.validRows = [] then
    ⟨false, false, scan.dropped, [], [],
     ⟨0, zeroValidRowsMsg⟩ :: scan.rowIssues⟩
  else
    let unsortedWarn : List ImportIssue :=
      if hasDescent scan.validRows then [⟨0, unsortedMsg⟩] else []
    let dd := dedupRevLoop (sortRows scan.validRows) [] 0
    let dupWarn : List ImportIssue :=
      if 0 < dd.2 then [⟨0, duplicateMsg dd.2⟩] else []
    ⟨true, decide (0 < scan.dropped), scan.dropped, dd.1,
     unsortedWarn ++ dupWarn ++
       (if 0 < scan.dropped then scan.rowIssues else []),
     []⟩

/-- `stockbt::import_ohlcv_csv` (`csv_importer.cpp`) on the lines of
the file: empty file error, header resolution, row loop from line 2,
then the post-filter phase. -/
def import_ohlcv_csv (lines : List String) (date_format : DateFormat) :
    ImportResult :=
  match lines with
  | [] => ⟨false, false, 0, [], [], [⟨1, "CSV is empty"⟩]⟩
  | header :: rest =>
    match resolveColumns (parse_csv_line header) with
    | none => ⟨false, false, 0, [], [], [⟨1, missingColumnsMsg⟩]⟩
    | some m => finalizeImport (processRows m date_format rest 2 ⟨[], [], 0⟩)

/-! ## BacktestEngine (`src/core/src/backtester.cpp`) -/

/-- `stockbt::Trade` (`types.hpp`). -/
structure Trade where
  entry_time : ℤ
  entry_price : ℚ
  exit_time : ℤ
  exit_price : ℚ
  qty : ℤ
  pnl : ℚ
  return_pct : ℚ
deriving DecidableEq, Repr

/-- `stockbt::Metrics` (`types.hpp`). -/
structure Metrics where
  total_return_pct : ℚ
  total_pnl : ℚ
  trades : ℕ
  win_rate_pct : ℚ
  avg_trade_return_pct : ℚ
  max_drawdown_pct : ℚ
deriving DecidableEq, Repr

/-- `stockbt::BacktestSettings` (`types.hpp`). -/
structure BacktestSettings where
  starting_cash : ℚ
  commission_pct : ℚ
  position_size_pct : ℚ
  stop_loss_pct : ℚ
  take_profit_pct : ℚ
deriving DecidableEq, Repr

/-- `stockbt::SmaParams` (`types.hpp`). -/
structure SmaParams where
  fast_window : ℕ
  slow_window : ℕ
deriving DecidableEq, Repr

/-- `SmaParams::is_valid`. -/
def SmaParams.is_valid (p : SmaParams) : Bool :=
  decide (0 < p.fast_window) && decide (0 < p.slow_window) &&
    decide (p.fast_window < p.slow_window)

/-- `stockbt::BacktestResult` (`types.hpp`). -/
structure BacktestResult where
  equity : List ℚ
  drawdown : List ℚ
  trades : List Trade
  metrics : Metrics
  warnings : List String
deriving DecidableEq, Repr

/-- The pending-action variant of the engine (`backtester.cpp`). -/
inductive PendingAction where
  | None
  | Buy
  | Sell
deriving DecidableEq, Repr

/-- `clamp01` (`backtester.cpp`). -/
def clamp01 (x : ℚ) : ℚ :=
  if x < 0 then 0 else if 1 < x then 1 else x

/-- The mutable locals of the bar loop of `run_sma_backtest`, plus the
accumulated equity samples, trades, and warnings. -/
structure EngineState where
  cash : ℚ
  qty : ℤ
  open_entry_time : ℤ
  open_entry_price : ℚ
  pending : PendingAction
  fast_sum : ℚ
  slow_sum : ℚ
  prev_fast : ℚ
  prev_slow : ℚ
  prev_valid : Bool
  equity : List ℚ
  trades : List Trade
  warnings : List String
deriving DecidableEq, Repr

/-- The `Trade` record both exit sites of `run_sma_backtest` build:
`pnl` is the raw price delta times quantity minus entry and exit
commissions, `return_pct` the fractional entry-to-exit return (0 when
the entry price is not positive). -/
def closeTrade (settings : BacktestSettings) (entry_time : ℤ)
    (entry_price : ℚ) (exit_time : ℤ) (exit_price : ℚ) (qty : ℤ) : Trade :=
  ⟨entry_time, entry_price, exit_time, exit_price, qty,
   (exit_price - entry_price) * (qty : ℚ) -
     entry_price * (qty : ℚ) * settings.commission_pct -
     exit_price * (qty : ℚ) * settings.commission_pct,
   if 0 < entry_price then (exit_price - entry_price) / entry_price else 0⟩

/-- Step 1 of the bar loop: execute the pending action at this bar's
open. A `Buy` sizes the position as
`floor(cash * clamp01(position_size_pct) / (open * (1 + commission)))`
and fills only when that quantity is positive; a `Sell` with a held
position credits the proceeds net of commission and records the
`Trade`. Either way `pending` is cleared. -/
def execPending (settings : BacktestSettings) (bar : Candle)
    (s : EngineState) : EngineState :=
  match s.pending with
  | PendingAction.None => s
  | PendingAction.Buy =>
    let denom := bar.o * (1 + settings.commission_pct)
    let budget := s.cash * clamp01 settings.position_size_pct
    let buy_qty : ℤ := if 0 < denom then ⌊budget / denom⌋ else 0
    if 0 < buy_qty then
      { s with
        cash := s.cash - ((buy_qty : ℚ) * bar.o +
          (buy_qty : ℚ) * bar.o * settings.commission_pct),
        qty := buy_qty,
        open_entry_time := bar.ts,
        open_entry_price := bar.o,
        pending := PendingAction.None }
    else { s with pending := PendingAction.None }
  | PendingAction.Sell =>
    if 0 < s.qty then
      { s with
        cash := s.cash + ((s.qty : ℚ) * bar.o -
          (s.qty : ℚ) * bar.o * settings.commission_pct),
        qty := 0,
        open_entry_time := 0,
        open_entry_price := 0,
        trades := s.trades ++
          [closeTrade settings s.open_entry_time s.open_entry_price
            bar.ts bar.o s.qty],
        pending := PendingAction.None }
    else { s with pending := PendingAction.None }

/-- Step 2 of the bar loop: sliding-window sums — add this bar's close,
and subtract the close falling out of each window once the index has
advanced past the window length. -/
def updateSums (candles : List Candle) (params : SmaParams) (i : ℕ)
    (bar : Candle) (s : EngineState) : EngineState :=
  { s with
    fast_sum :=
      if params.fast_window ≤ i then
        s.fast_sum + bar.c - (candles.getD (i - params.fast_window) default).c
      else s.fast_sum + bar.c,
    slow_sum :=
      if params.slow_window ≤ i then
        s.slow_sum + bar.c - (candles.getD (i - params.slow_window) default).c
      else s.slow_sum + bar.c }

/-- The discarded-final-bar-signal warning. -/
def lastBarSignalMsg : String :=
  "Last bar signal discarded (no next bar for execution)."

/-- Step 3 of the bar loop: crossover detection, only when both windows
are valid (`i + 1 ≥ window`) and a previous pair exists. A cross-up
while flat (and no pending action) schedules a `Buy` for the next bar,
or is discarded with a warning on the final bar; symmetrically a
cross-down while long schedules a `Sell`. -/
def signalStep (params : SmaParams) (n i : ℕ) (s : EngineState) :
    EngineState :=
  if params.fast_window ≤ i + 1 ∧ params.slow_window ≤ i + 1 then
    let fast := s.fast_sum / (params.fast_window : ℚ)
    let slow := s.slow_sum / (params.slow_window : ℚ)
    let s1 :=
      if s.prev_valid then
        if (s.prev_fast ≤ s.prev_slow ∧ slow < fast) ∧ s.qty = 0 ∧
            s.pending = PendingAction.None then
          if i + 1 < n then { s with pending := PendingAction.Buy }
          else { s with warnings := s.warnings ++ [lastBarSignalMsg] }
        else if (s.prev_slow ≤ s.prev_fast ∧ fast < slow) ∧ 0 < s.qty ∧
            s.pending = PendingAction.None then
          if i + 1 < n then { s with pending := PendingAction.Sell }
          else { s with warnings := s.warnings ++ [lastBarSignalMsg] }
        else s
      else s
    { s1 with prev_fast := fast, prev_slow := slow, prev_valid := true }
  else s

/-- The four risk-exit warnings. -/
def stopLossSchedMsg : String :=
  "Stop-loss triggered; exit scheduled on next bar open."

/-- Warning when the stop-loss fires on the final bar. -/
def stopLossLastMsg : String :=
  "Stop-loss triggered on last bar; exiting at final close."

/-- Warning when the take-profit schedules a next-bar exit. -/
def takeProfitSchedMsg : String :=
  "Take-profit triggered; exit scheduled on next bar open."

/-- Warning when the take-profit fires on the final bar. -/
def takeProfitLastMsg : String :=
  "Take-profit triggered on last bar; exiting at final close."

/-- Step 4 of the bar loop: risk exits, checked only while long with no
pending action: the close-to-close unrealized return against the entry
triggers a scheduled (or, on the final bar, warned-only) exit at the
stop-loss or take-profit thresholds when enabled. -/
def riskStep (settings : BacktestSettings) (n i : ℕ) (bar : Candle)
    (s : EngineState) : EngineState :=
  if 0 < s.qty ∧ s.pending = PendingAction.None then
    let bar_return :=
      if 0 < s.open_entry_price then
        (bar.c - s.open_entry_price) / s.open_entry_price
      else 0
    if 0 < settings.stop_loss_pct ∧ bar_return ≤ -settings.stop_loss_pct then
      if i + 1 < n then
        { s with
          pending := PendingAction.Sell,
          warnings := s.warnings ++ [stopLossSchedMsg] }
      else { s with warnings := s.warnings ++ [stopLossLastMsg] }
    else if 0 < settings.take_profit_pct ∧
        settings.take_profit_pct ≤ bar_return then
      if i + 1 < n then
        { s with
          pending := PendingAction.Sell,
          warnings := s.warnings ++ [takeProfitSchedMsg] }
      else { s with warnings := s.warnings ++ [takeProfitLastMsg] }
    else s
  else s

/-- Step 5 of the bar loop: mark-to-market equity sample
`cash + qty * close`. -/
def markEquity (bar : Candle) (s : EngineState) : EngineState :=
  { s with equity := s.equity ++ [s.cash + (s.qty : ℚ) * bar.c] }

/-- One full iteration of the bar loop at index `i` (`n` is the series
length). -/
def stepBar (candles : List Candle) (params : SmaParams)
    (settings : BacktestSettings) (n i : ℕ) (s : EngineState) : EngineState :=
  markEquity (candles.getD i default)
    (riskStep settings n i (candles.getD i default)
      (signalStep params n i
        (updateSums candles params i (candles.getD i default)
          (execPending settings (candles.getD i default) s))))

/-- The below-slow-window warning pushed before the loop. -/
def belowSlowMsg : String :=
  "Dataset length is below slow_window. No signals/trades generated."

/-- The locals as initialized before the loop (`cash = starting_cash`,
flat, nothing pending, empty sums, no previous SMA pair), carrying the
warnings already pushed. -/
def initState (settings : BacktestSettings) (warns : List String) :
    EngineState :=
  ⟨settings.starting_cash, 0, 0, 0, PendingAction.None, 0, 0, 0, 0, false,
   [], [], warns⟩

/-- The engine state after the first `i` iterations of the bar loop. -/
def loopTo (candles : List Candle) (params : SmaParams)
    (settings : BacktestSettings) : ℕ → EngineState
  | 0 => initState settings
      (if candles.length < params.slow_window then [belowSlowMsg] else [])
  | i + 1 => stepBar candles params settings candles.length i
      (loopTo candles params settings i)

/-- The engine state after the whole bar loop. -/
def runLoop (candles : List Candle) (params : SmaParams)
    (settings : BacktestSettings) : EngineState :=
  loopTo candles params settings candles.length

/-- The forced-close warning. -/
def forceCloseMsg : String := "Open position force-closed at last bar close."

/-- The post-loop forced liquidation: a still-open position is closed
at the final bar's close; the resulting `Trade` is appended, the final
equity sample is overwritten with the realized cash, and the
forced-close warning is emitted. -/
def forceClose (candles : List Candle) (settings : BacktestSettings)
    (s : EngineState) : EngineState :=
  if 0 < s.qty then
    { s with
      cash := s.cash + ((s.qty : ℚ) * (candles.getLast?.getD default).c -
        (s.qty : ℚ) * (candles.getLast?.getD default).c *
          settings.commission_pct),
      qty := 0,
      trades := s.trades ++
        [closeTrade settings s.open_entry_time s.open_entry_price
          (candles.getLast?.getD default).ts (candles.getLast?.getD default).c
          s.qty],
      equity := s.equity.dropLast ++
        [s.cash + ((s.qty : ℚ) * (candles.getLast?.getD default).c -
          (s.qty : ℚ) * (candles.getLast?.getD default).c *
            settings.commission_pct)],
      warnings := s.warnings ++ [forceCloseMsg] }
  else s

/-- The running-peak step of the drawdown pass:
`peak = max(peak, equity[i])`, with `none` modelling the `-inf`
start (`max(-inf, e) = e`). -/
def peakUpdate (peak : Option ℚ) (e : ℚ) : ℚ :=
  match peak with
  | none => e
  | some p => max p e

/-- The running-minimum walk over the equity samples (see
`peakUpdate` for the peak step): `drawdown = (equity - peak) / peak`
when the peak is positive, else 0. Returns the drawdown sequence and
the final running minimum. -/
def ddLoop : List ℚ → Option ℚ → ℚ → (List ℚ × ℚ)
  | [], _, minDd => ([], minDd)
  | e :: rest, peak, minDd =>
    let peak2 := peakUpdate peak e
    let dd := if 0 < peak2 then (e - peak2) / peak2 else 0
    let r := ddLoop rest (some peak2) (min minDd dd)
    (dd :: r.1, r.2)

/-- The empty-dataset warning. -/
def emptyDatasetMsg : String := "Backtest skipped: empty dataset."

/-- The invalid-parameters warning. -/
def invalidParamsMsg : String :=
  "Backtest skipped: invalid SMA parameters (require fast < slow and > 0)."

/-- `stockbt::run_sma_backtest` (`backtester.cpp`): early returns for an
empty series or invalid parameters; otherwise the bar loop, the forced
close, the drawdown pass, and the metrics. -/
def run_sma_backtest (candles : List Candle) (params : SmaParams)
    (settings : BacktestSettings) : BacktestResult :=
  if candles = [] then
    ⟨[], [], [], ⟨0, 0, 0, 0, 0, 0⟩, [emptyDatasetMsg]⟩
  else if params.is_valid = false then
    ⟨[], [], [], ⟨0, 0, 0, 0, 0, 0⟩, [invalidParamsMsg]⟩
  else
    let s := forceClose candles settings (runLoop candles params settings)
    let dd := ddLoop s.equity none 0
    let final_equity := match s.equity.getLast? with
      | none => settings.starting_cash
      | some e => e
    let total_pnl := final_equity - settings.starting_cash
    let wins := (s.trades.filter (fun t => 0 < t.pnl)).length
    let sum_returns := (s.trades.map Trade.return_pct).sum
    ⟨s.equity, dd.1, s.trades,
     ⟨if settings.starting_cash ≠ 0 then total_pnl / settings.starting_cash * 100
       else 0,
      total_pnl,
      s.trades.length,
      if s.trades = [] then 0
        else ((wins : ℚ) / (s.trades.length : ℚ)) * 100,
      if s.trades = [] then 0
        else (sum_returns / (s.trades.length : ℚ)) * 100,
      dd.2 * 100⟩,
     s.warnings⟩

theorem scanAux_succ (points : List SeriesPoint) (start cnt : ℕ) :
    scanAux points start (cnt + 1) =
      scanStep points (scanAux points start cnt) (start + 1 + cnt) := by
  have hconcat : List.range' (start + 1) (cnt + 1) =
      List.range' (start + 1) cnt ++ [start + 1 + cnt] := by
    simpa using @List.range'_concat 1 (start + 1) cnt
  simp [scanAux, hconcat]

/-- Invariant of the min/max scan: after processing the indices
`start + 1, …, start + cnt`, each returned index lies in
`[start, start + cnt]`, is extremal among those indices, and is the
first occurrence of its extremal value. -/
theorem scanAux_spec (points : List SeriesPoint) (start : ℕ) :
    ∀ cnt : ℕ,
    (start ≤ (scanAux points start cnt).1 ∧
      (scanAux points start cnt).1 ≤ start + cnt ∧
      (∀ j, start ≤ j → j ≤ start + cnt →
        (points.getD (scanAux points start cnt).1 default).value ≤
          (points.getD j default).value) ∧
      (∀ j, start ≤ j → j < (scanAux points start cnt).1 →
        (points.getD (scanAux points start cnt).1 default).value <
          (points.getD j default).value)) ∧
    (start ≤ (scanAux points start cnt).2 ∧
      (scanAux points start cnt).2 ≤ start + cnt ∧
      (∀ j, start ≤ j → j ≤ start + cnt →
        (points.getD j default).value ≤
          (points.getD (scanAux points start cnt).2 default).value) ∧
      (∀ j, start ≤ j → j < (scanAux points start cnt).2 →
        (points.getD j default).value <
          (points.getD (scanAux points start cnt).2 default).value)) := by
  intro cnt
  induction cnt with
  | zero =>
    have hz : scanAux points start 0 = (start, start) := by
      simp [scanAux]
    rw [hz]
    refine ⟨⟨le_refl _, by omega, ?_, ?_⟩, ⟨le_refl _, by omega, ?_, ?_⟩⟩ <;>
      intro j hj hj'
    · have : j = start := by omega
      subst this; exact le_refl _
    · exact absurd (lt_of_le_of_lt hj hj') (lt_irrefl start)
    · have : j = start := by omega
      subst this; exact le_refl _
    · exact absurd (lt_of_le_of_lt hj hj') (lt_irrefl start)
  | succ cnt ih =>
    rw [scanAux_succ]
    obtain ⟨⟨hlo₁, hhi₁, hmin₁, hfirst₁⟩, ⟨hlo₂, hhi₂, hmax₂, hfirst₂⟩⟩ := ih
    set r := scanAux points start cnt with hr
    rw [scanStep]
    constructor
    · by_cases hlt : (points.getD (start + 1 + cnt) default).value <
        (points.getD r.1 default).value
      · rw [if_pos hlt]
        refine ⟨by omega, by omega, ?_, ?_⟩
        · intro j hj hj'
          rcases Nat.lt_or_ge j (start + 1 + cnt) with hcase | hcase
          · exact le_of_lt (lt_of_lt_of_le hlt (hmin₁ j hj (by omega)))
          · have : j = start + 1 + cnt := by omega
            subst this; exact le_refl _
        · intro j hj hj'
          exact lt_of_lt_of_le hlt (hmin₁ j hj (by omega))
      · rw [if_neg hlt]
        refine ⟨hlo₁, by omega, ?_, ?_⟩
        · intro j hj hj'
          rcases Nat.lt_or_ge j (start + 1 + cnt) with hcase | hcase
          · exact hmin₁ j hj (by omega)
          · have : j = start + 1 + cnt := by omega
            subst this
            exact le_of_not_lt hlt
        · intro j hj hj'
          exact hfirst₁ j hj hj'
    · by_cases hgt : (points.getD (start + 1 + cnt) default).value >
        (points.getD r.2 default).value
      · rw [if_pos hgt]
        refine ⟨by omega, by omega, ?_, ?_⟩
        · intro j hj hj'
          rcases Nat.lt_or_ge j (start + 1 + cnt) with hcase | hcase
          · exact le_of_lt (lt_of_le_of_lt (hmax₂ j hj (by omega)) hgt)
          · have : j = start + 1 + cnt := by omega
            subst this; exact le_refl _
        · intro j hj hj'
          exact lt_of_le_of_lt (hmax₂ j hj (by omega)) hgt
      · rw [if_neg hgt]
        refine ⟨hlo₂, by omega, ?_, ?_⟩
        · intro j hj hj'
          rcases Nat.lt_or_ge j (start + 1 + cnt) with hcase | hcase
          · exact hmax₂ j hj (by omega)
          · have : j = start + 1 + cnt := by omega
            subst this
            exact le_of_not_lt hgt
        · intro j hj hj'
          exact hfirst₂ j hj hj'

/-- The min/max scan of a non-empty bucket `[start, stop)` yields the
first indices of the bucket's minimum and maximum values. -/
theorem scanBucket_spec (points : List SeriesPoint) (start stop : ℕ)
    (h : start < stop) :
    IsBucketExtremes points start stop (bucketRecord points start stop) := by
  have hspec := scanAux_spec points start (stop - (start + 1))
  rw [bucketRecord, scanBucket]
  obtain ⟨⟨hlo₁, hhi₁, hmin₁, hfirst₁⟩, ⟨hlo₂, hhi₂, hmax₂, hfirst₂⟩⟩ := hspec
  constructor
  · exact ⟨_, hlo₁, by omega,
      rfl, rfl,
      fun j hj hj' => hmin₁ j hj (by omega),
      fun j hj hj' => hfirst₁ j hj hj'⟩
  · exact ⟨_, hlo₂, by omega,
      rfl, rfl,
      fun j hj hj' => hmax₂ j hj (by omega),
      fun j hj hj' => hfirst₂ j hj hj'⟩

/-- C8: for a non-empty, ts-sorted point list and positive `pixel_width`:
when `points.length ≤ display_cap` the result is one degenerate record
per point (`min == max == the point`); otherwise the points are split by
index into `bucketCount = max(1, min(pixel_width, display_cap / 2))`
contiguous buckets with boundaries at `⌊b·N/bucketCount⌋`, and one
record is emitted per non-empty bucket, holding that bucket's minimum
and maximum value with the first occurrence taken on ties. -/
theorem downsample_bucket_min_max_spec
    (points : List SeriesPoint) (pixel_width display_cap : ℕ)
    (hne : points ≠ []) (hw : 0 < pixel_width)
    (_hsorted : List.Pairwise (fun a b : SeriesPoint => a.ts ≤ b.ts) points) :
    (points.length ≤ display_cap →
      downsample_bucket_min_max points pixel_width display_cap =
        points.map (fun p => ⟨p.ts, p.value, p.ts, p.value⟩) ∧
      (downsample_bucket_min_max points pixel_width display_cap).length =
        points.length) ∧
    (display_cap < points.length →
      ∃ emit : ℕ → Option BucketMinMax,
        downsample_bucket_min_max points pixel_width display_cap =
          (List.range (bucketCount pixel_width display_cap)).filterMap emit ∧
        ∀ b, b < bucketCount pixel_width display_cap →
          (bucketStart points.length (bucketCount pixel_width display_cap) b <
              bucketStop points.length (bucketCount pixel_width display_cap) b →
            ∃ r, emit b = some r ∧
              IsBucketExtremes points
                (bucketStart points.length
                  (bucketCount pixel_width display_cap) b)
                (bucketStop points.length
                  (bucketCount pixel_width display_cap) b) r) ∧
          (bucketStop points.length (bucketCount pixel_width display_cap) b ≤
              bucketStart points.length (bucketCount pixel_width display_cap) b →
            emit b = none)) := by
  have hcond : ¬(points = [] ∨ pixel_width = 0) := by
    rintro (h | h)
    · exact hne h
    · omega
  constructor
  · intro hle
    rw [downsample_bucket_min_max, if_neg hcond, if_pos hle]
    exact ⟨rfl, by simp⟩
  · intro hgt
    refine ⟨fun b =>
      if bucketStart points.length (bucketCount pixel_width display_cap) b ≥
          bucketStop points.length (bucketCount pixel_width display_cap) b
        then none
      else
        some (bucketRecord points
          (bucketStart points.length (bucketCount pixel_width display_cap) b)
          (bucketStop points.length (bucketCount pixel_width display_cap) b)),
      ?_, ?_⟩
    · rw [downsample_bucket_min_max, if_neg hcond, if_neg (by omega)]
    · intro b hb
      constructor
      · intro hlt
        refine ⟨bucketRecord points _ _, ?_, scanBucket_spec _ _ _ hlt⟩
        dsimp only
        rw [if_neg (by omega)]
      · intro hle
        dsimp only
        rw [if_pos (by omega)]

/-- Witness for C8 at a concrete input: three points, `pixel_width = 2`,
`display_cap = 1`, so the bucketing branch is exercised. -/
theorem downsample_bucket_min_max_spec_witness :
    (([⟨1, 1⟩, ⟨2, 5⟩, ⟨3, 2⟩] : List SeriesPoint).length ≤ 1 →
      downsample_bucket_min_max [⟨1, 1⟩, ⟨2, 5⟩, ⟨3, 2⟩] 2 1 =
        ([⟨1, 1⟩, ⟨2, 5⟩, ⟨3, 2⟩] : List SeriesPoint).map
          (fun p => ⟨p.ts, p.value, p.ts, p.value⟩) ∧
      (downsample_bucket_min_max [⟨1, 1⟩, ⟨2, 5⟩, ⟨3, 2⟩] 2 1).length =
        ([⟨1, 1⟩, ⟨2, 5⟩, ⟨3, 2⟩] : List SeriesPoint).length) ∧
    (1 < ([⟨1, 1⟩, ⟨2, 5⟩, ⟨3, 2⟩] : List SeriesPoint).length →
      ∃ emit : ℕ → Option BucketMinMax,
        downsample_bucket_min_max [⟨1, 1⟩, ⟨2, 5⟩, ⟨3, 2⟩] 2 1 =
          (List.range (bucketCount 2 1)).filterMap emit ∧
        ∀ b, b < bucketCount 2 1 →
          (bucketStart 3 (bucketCount 2 1) b < bucketStop 3 (bucketCount 2 1) b →
            ∃ r, emit b = some r ∧
              IsBucketExtremes [⟨1, 1⟩, ⟨2, 5⟩, ⟨3, 2⟩]
                (bucketStart 3 (bucketCount 2 1) b)
                (bucketStop 3 (bucketCount 2 1) b) r) ∧
          (bucketStop 3 (bucketCount 2 1) b ≤ bucketStart 3 (bucketCount 2 1) b →
            emit b = none)) :=
  downsample_bucket_min_max_spec [⟨1, 1⟩, ⟨2, 5⟩, ⟨3, 2⟩] 2 1
    (by decide)
    (by decide)
    (by norm_num [List.pairwise_cons])

/-- C10: an empty point list, or `pixel_width = 0`, makes
`downsample_bucket_min_max` return the empty sequence — the guard fires
before the `points.length ≤ display_cap` verbatim branch. -/
theorem downsample_bucket_min_max_guard (points : List SeriesPoint)
    (pixel_width display_cap : ℕ)
    (h : points = [] ∨ pixel_width = 0) :
    downsample_bucket_min_max points pixel_width display_cap = [] := by
  rw [downsample_bucket_min_max, if_pos h]

/-- Witness for C10: a one-point list with `pixel_width = 0` and a
`display_cap` that would otherwise return the point verbatim. -/
theorem downsample_bucket_min_max_guard_witness :
    downsample_bucket_min_max [⟨0, 1⟩] 0 5 = [] :=
  downsample_bucket_min_max_guard [⟨0, 1⟩] 0 5 (Or.inr rfl)

/-! ### TimeCodec theorems -/

theorem scanTime_count_ge (timeSep : Option Char) (a b c : Int)
    (r5 : List Char) : 3 ≤ (scanTime timeSep a b c r5).count := by
  unfold scanTime
  dsimp only
  repeat' split
  all_goals simp

/-- `parse_timestamp_utc` in terms of the effective scan `scanOf` and
the built `std::tm` `tmOf`. -/
theorem parse_timestamp_utc_eq (s : String) (fmt : DateFormat) :
    parse_timestamp_utc s fmt =
      if (scanOf fmt s.toList).count < 3 then none
      else tm_to_epoch_utc (tmOf fmt (scanOf fmt s.toList)) := by
  cases fmt with
  | Iso =>
    simp only [parse_timestamp_utc, parse_iso, scanOf, tmOf, String.toList]
    by_cases h1 : (runScan '-' none s.data).count < 3
    · simp only [h1, if_true]
      by_cases h2 : (runScan '-' (some 'T') s.data).count < 3 <;> simp [h2]
    · simp [h1]
  | Mdy =>
    simp only [parse_timestamp_utc, parse_slash, scanOf, tmOf, String.toList]
    by_cases h : (runScan '/' none s.data).count < 3 <;> simp [h]
  | Dmy =>
    simp only [parse_timestamp_utc, parse_slash, scanOf, tmOf, String.toList]
    by_cases h : (runScan '/' none s.data).count < 3 <;> simp [h]

theorem tmOf_time_zero (fmt : DateFormat) (r : ScanResult) (h : r.count < 6) :
    (tmOf fmt r).tm_hour = 0 ∧ (tmOf fmt r).tm_min = 0 ∧
      (tmOf fmt r).tm_sec = 0 := by
  have h6 : ¬ 6 ≤ r.count := by omega
  cases fmt <;> simp [tmOf, tmOfScanIso, tmOfScanSlash, h6]

/-- C3 counterexample: the ISO parser accepts a partially present time
(`HH:MM` without seconds) instead of failing: the two parsed time
fields are silently discarded and the timestamp defaults to midnight
(`2020-01-02T00:00:00Z = 1577923200`). -/
theorem parse_timestamp_utc_counterexample :
    parse_timestamp_utc "2020-01-02 03:04" DateFormat.Iso =
      some 1577923200 := by decide

/-- C3 amended: a malformed date (fewer than three assigned fields)
fails; an out-of-range assigned calendar field fails; but a partially
present time (3–5 assigned fields) does not fail — it is discarded and
the timestamp defaults to midnight of the parsed date; trailing garbage
after the parsed prefix is ignored; and a `'T'`-separated time is never
parsed (the space-format call already returns 3, so the `'T'` retry is
dead code) and likewise defaults to midnight. -/
theorem parse_timestamp_utc_amended :
    (∀ (s : String) (fmt : DateFormat),
      (scanOf fmt s.toList).count < 3 → parse_timestamp_utc s fmt = none) ∧
    (∀ (s : String) (fmt : DateFormat),
      ((tmOf fmt (scanOf fmt s.toList)).tm_mon < 0 ∨
       11 < (tmOf fmt (scanOf fmt s.toList)).tm_mon ∨
       (tmOf fmt (scanOf fmt s.toList)).tm_mday < 1 ∨
       31 < (tmOf fmt (scanOf fmt s.toList)).tm_mday ∨
       (tmOf fmt (scanOf fmt s.toList)).tm_hour < 0 ∨
       23 < (tmOf fmt (scanOf fmt s.toList)).tm_hour ∨
       (tmOf fmt (scanOf fmt s.toList)).tm_min < 0 ∨
       59 < (tmOf fmt (scanOf fmt s.toList)).tm_min ∨
       (tmOf fmt (scanOf fmt s.toList)).tm_sec < 0 ∨
       60 < (tmOf fmt (scanOf fmt s.toList)).tm_sec) →
      parse_timestamp_utc s fmt = none) ∧
    (∀ (s : String) (fmt : DateFormat),
      3 ≤ (scanOf fmt s.toList).count → (scanOf fmt s.toList).count < 6 →
      0 ≤ (tmOf fmt (scanOf fmt s.toList)).tm_mon →
      (tmOf fmt (scanOf fmt s.toList)).tm_mon ≤ 11 →
      1 ≤ (tmOf fmt (scanOf fmt s.toList)).tm_mday →
      (tmOf fmt (scanOf fmt s.toList)).tm_mday ≤ 31 →
      parse_timestamp_utc s fmt =
        some (daysFromCivil ((tmOf fmt (scanOf fmt s.toList)).tm_year + 1900)
          ((tmOf fmt (scanOf fmt s.toList)).tm_mon + 1)
          ((tmOf fmt (scanOf fmt s.toList)).tm_mday) * 86400)) ∧
    parse_timestamp_utc "2020-01-02 03:04:05xyz" DateFormat.Iso =
      parse_timestamp_utc "2020-01-02 03:04:05" DateFormat.Iso ∧
    parse_timestamp_utc "2020-01-02T03:04:05" DateFormat.Iso =
      parse_timestamp_utc "2020-01-02" DateFormat.Iso := by
  refine ⟨?_, ?_, ?_, by decide, by decide⟩
  · intro s fmt h
    rw [parse_timestamp_utc_eq, if_pos h]
  · intro s fmt h
    by_cases hc : (scanOf fmt s.toList).count < 3
    · rw [parse_timestamp_utc_eq, if_pos hc]
    · rw [parse_timestamp_utc_eq, if_neg hc]
      have hfalse : is_tm_in_range (tmOf fmt (scanOf fmt s.toList)) = false := by
        apply Bool.eq_false_iff.mpr
        intro htrue
        simp only [is_tm_in_range, Bool.and_eq_true, decide_eq_true_eq] at htrue
        rcases h with h | h | h | h | h | h | h | h | h | h <;> omega
      rw [tm_to_epoch_utc,
        if_neg (by simp
          [show is_tm_in_range (tmOf fmt (scanOf fmt s.data)) = false from
            hfalse])]
  · intro s fmt h3 h6 hm1 hm2 hd1 hd2
    obtain ⟨hh0, hmi0, hs0⟩ := tmOf_time_zero fmt (scanOf fmt s.toList) h6
    rw [parse_timestamp_utc_eq, if_neg (by omega)]
    have hrange : is_tm_in_range (tmOf fmt (scanOf fmt s.toList)) = true := by
      simp only [is_tm_in_range, Bool.and_eq_true, decide_eq_true_eq]
      refine ⟨⟨⟨⟨⟨⟨⟨⟨⟨hm1, hm2⟩, hd1⟩, hd2⟩, ?_⟩, ?_⟩, ?_⟩, ?_⟩, ?_⟩, ?_⟩ <;>
        omega
    have hT : timegmModel (tmOf fmt (scanOf fmt s.toList)) =
        daysFromCivil ((tmOf fmt (scanOf fmt s.toList)).tm_year + 1900)
          ((tmOf fmt (scanOf fmt s.toList)).tm_mon + 1)
          ((tmOf fmt (scanOf fmt s.toList)).tm_mday) * 86400 := by
      rw [timegmModel, hh0, hmi0, hs0]
      ring
    rw [tm_to_epoch_utc, if_pos hrange, hT, if_neg (by omega)]

/-- Witness for the amended C3 theorem at concrete inputs: a malformed
date fails, an out-of-range month fails, and a partial time defaults to
midnight. -/
theorem parse_timestamp_utc_amended_witness :
    parse_timestamp_utc "garbage" DateFormat.Iso = none ∧
    parse_timestamp_utc "2020-13-01" DateFormat.Iso = none ∧
    parse_timestamp_utc "2020-01-02 03:04" DateFormat.Iso =
      some (daysFromCivil 2020 1 2 * 86400) :=
  ⟨parse_timestamp_utc_amended.1 "garbage" DateFormat.Iso (by decide),
   parse_timestamp_utc_amended.2.1 "2020-13-01" DateFormat.Iso
     (by decide),
   parse_timestamp_utc_amended.2.2.1 "2020-01-02 03:04" DateFormat.Iso
     (by decide) (by decide) (by decide) (by decide) (by decide) (by decide)⟩

/-! ### CsvImporter theorems -/

theorem hasDescent_iff :
    ∀ l : List Candle,
      hasDescent l = true ↔ ¬ List.Chain' (fun a b : Candle => a.ts ≤ b.ts) l
  | [] => by simp [hasDescent]
  | [a] => by simp [hasDescent]
  | a :: b :: rest => by
    rw [hasDescent]
    simp only [Bool.or_eq_true, decide_eq_true_eq, List.chain'_cons,
      hasDescent_iff (b :: rest), not_and_or]
    constructor
    · rintro (h | h)
      · exact Or.inl (by omega)
      · exact Or.inr h
    · rintro (h | h)
      · exact Or.inl (by omega)
      · exact Or.inr h

theorem sortRows_sorted (l : List Candle) :
    List.Pairwise (fun a b : Candle => a.ts ≤ b.ts) (sortRows l) :=
  List.sorted_insertionSort _ l

/-- The dedup loop turns a non-decreasing input into a strictly
ascending output, provided the (reversed) accumulator is strictly
descending and bounds the input from below. -/
theorem dedupRevLoop_pairwise (l : List Candle) :
    ∀ (acc : List Candle) (n : ℕ),
      List.Pairwise (fun a b : Candle => a.ts ≤ b.ts) l →
      List.Pairwise (fun a b : Candle => b.ts < a.ts) acc →
      (∀ c ∈ l, ∀ a ∈ acc, a.ts ≤ c.ts) →
      List.Pairwise (fun a b : Candle => a.ts < b.ts)
        (dedupRevLoop l acc n).1 := by
  induction l with
  | nil =>
    intro acc n _ hacc _
    rw [dedupRevLoop]
    exact List.pairwise_reverse.mpr hacc
  | cons c l ih =>
    intro acc n hl hacc hbound
    obtain ⟨hc, hl'⟩ := List.pairwise_cons.mp hl
    cases acc with
    | nil =>
      simp only [dedupRevLoop]
      apply ih [c] n hl' (List.pairwise_singleton _ _)
      intro x hx a ha
      rcases List.mem_singleton.mp ha with rfl
      exact hc x hx
    | cons b accTail =>
      obtain ⟨hb, hacc'⟩ := List.pairwise_cons.mp hacc
      have hbc : b.ts ≤ c.ts := hbound c (List.mem_cons_self c l) b
        (List.mem_cons_self b accTail)
      simp only [dedupRevLoop]
      by_cases heq : b.ts = c.ts
      · rw [if_pos heq]
        apply ih (c :: accTail) (n + 1) hl'
        · refine List.pairwise_cons.mpr ⟨?_, hacc'⟩
          intro y hy
          have := hb y hy
          omega
        · intro x hx a ha
          rcases List.mem_cons.mp ha with rfl | ha'
          · exact hc x hx
          · exact hbound x (List.mem_cons_of_mem _ hx) a
              (List.mem_cons_of_mem _ ha')
      · rw [if_neg heq]
        apply ih (c :: b :: accTail) n hl'
        · refine List.pairwise_cons.mpr ⟨?_, hacc⟩
          intro y hy
          rcases List.mem_cons.mp hy with rfl | hy'
          · omega
          · have := hb y hy'
            omega
        · intro x hx a ha
          rcases List.mem_cons.mp ha with rfl | ha'
          · exact hc x hx
          · exact hbound x (List.mem_cons_of_mem _ hx) a ha'

theorem unsortedMsg_ne_duplicateMsg (k : ℕ) : unsortedMsg ≠ duplicateMsg k := by
  intro h
  have hh : unsortedMsg.data.head? = (duplicateMsg k).data.head? :=
    congrArg (fun s => s.data.head?) h
  have hL : unsortedMsg.data.head? = some 'T' := rfl
  have hD : ("Duplicate timestamps detected. Kept last occurrence for ").data.head? =
      some 'D' := rfl
  rw [duplicateMsg, String.data_append, String.data_append] at hh
  simp only [List.head?_append] at hh
  rw [hL, hD] at hh
  simp only [Option.or] at hh
  exact absurd hh (by decide)

/-- Every issue `processLine` appends carries the current line number. -/
theorem processLine_issues (m : ColumnMap) (fmt : DateFormat) (k : ℕ)
    (line : String) (st : RowScan) :
    (processLine m fmt k line st).rowIssues = st.rowIssues ∨
    ∃ msg, (processLine m fmt k line st).rowIssues =
      st.rowIssues ++ [⟨k, msg⟩] := by
  unfold processLine dropRow
  dsimp only
  repeat' split
  all_goals first
    | exact Or.inl rfl
    | exact Or.inr ⟨_, rfl⟩

/-- Row issues produced by the row loop keep line numbers at least the
starting line number (2 after the header), hence never 0. -/
theorem processRows_issue_lines (m : ColumnMap) (fmt : DateFormat) :
    ∀ (lines : List String) (k : ℕ) (st : RowScan),
      (∀ i ∈ st.rowIssues, 2 ≤ i.line) → 2 ≤ k →
      ∀ i ∈ (processRows m fmt lines k st).rowIssues, 2 ≤ i.line := by
  intro lines
  induction lines with
  | nil =>
    intro k st hst _
    simpa [processRows] using hst
  | cons l rest ih =>
    intro k st hst hk
    rw [processRows]
    apply ih (k + 1) _ _ (by omega)
    rcases processLine_issues m fmt k l st with h | ⟨msg, h⟩
    · rw [h]; exact hst
    · rw [h]
      intro i hi
      rcases List.mem_append.mp hi with hi' | hi'
      · exact hst i hi'
      · rcases List.mem_singleton.mp hi' with rfl
        exact hk

/-- C4 counterexample: a header missing the volume column fails as the
claim says, but the single error is recorded at line 1 (the header
line), not at the file-level line 0. -/
theorem import_missing_columns_counterexample :
    import_ohlcv_csv ["Date,Open,High,Low,Close"] DateFormat.Iso =
      ⟨false, false, 0, [], [], [⟨1, missingColumnsMsg⟩]⟩ := by decide

/-- C4 amended: when the header does not resolve the required columns,
the import fails with exactly one error citing the missing-columns
requirement, recorded at line 1 (the header line) rather than line 0;
no data rows are processed, `candles` is empty and `dropped_rows = 0`. -/
theorem import_missing_columns (header : String) (rest : List String)
    (fmt : DateFormat)
    (h : resolveColumns (parse_csv_line header) = none) :
    import_ohlcv_csv (header :: rest) fmt =
      ⟨false, false, 0, [], [], [⟨1, missingColumnsMsg⟩]⟩ := by
  simp [import_ohlcv_csv, h]

/-- Witness for the amended C4 theorem: a concrete CSV with a header
missing the volume column and one (unprocessed) data row. -/
theorem import_missing_columns_witness :
    import_ohlcv_csv ["Date,Open,High,Low,Close", "2024-01-01,1,1,1,1,0"]
        DateFormat.Iso =
      ⟨false, false, 0, [], [], [⟨1, missingColumnsMsg⟩]⟩ :=
  import_missing_columns "Date,Open,High,Low,Close"
    ["2024-01-01,1,1,1,1,0"] DateFormat.Iso (by decide)

/-- C5: once the header resolves, the outcome rules hold: zero
surviving rows fail the import with the file-level zero-valid-rows
error followed by every per-row drop issue as errors (warnings stay
empty); otherwise the import succeeds, `partial_success` holds iff some
row was dropped, errors stay empty, and the warnings are the
unsorted/duplicate file-level warnings followed by the per-row drop
issues exactly when some row was dropped. -/
theorem import_outcome_rules (header : String) (rest : List String)
    (fmt : DateFormat) (m : ColumnMap)
    (hm : resolveColumns (parse_csv_line header) = some m) :
    ((processRows m fmt rest 2 ⟨[], [], 0⟩).validRows = [] →
      import_ohlcv_csv (header :: rest) fmt =
        ⟨false, false, (processRows m fmt rest 2 ⟨[], [], 0⟩).dropped, [], [],
         ⟨0, zeroValidRowsMsg⟩ ::
           (processRows m fmt rest 2 ⟨[], [], 0⟩).rowIssues⟩) ∧
    ((processRows m fmt rest 2 ⟨[], [], 0⟩).validRows ≠ [] →
      (import_ohlcv_csv (header :: rest) fmt).success = true ∧
      ((import_ohlcv_csv (header :: rest) fmt).partial_success = true ↔
        0 < (processRows m fmt rest 2 ⟨[], [], 0⟩).dropped) ∧
      (import_ohlcv_csv (header :: rest) fmt).errors = [] ∧
      (import_ohlcv_csv (header :: rest) fmt).warnings =
        (if hasDescent (processRows m fmt rest 2 ⟨[], [], 0⟩).validRows
          then [⟨0, unsortedMsg⟩] else []) ++
        (if 0 < (dedupRevLoop
            (sortRows (processRows m fmt rest 2 ⟨[], [], 0⟩).validRows) [] 0).2
          then [⟨0, duplicateMsg (dedupRevLoop
            (sortRows (processRows m fmt rest 2 ⟨[], [], 0⟩).validRows) [] 0).2⟩]
          else []) ++
        (if 0 < (processRows m fmt rest 2 ⟨[], [], 0⟩).dropped
          then (processRows m fmt rest 2 ⟨[], [], 0⟩).rowIssues else [])) := by
  constructor
  · intro hempty
    simp [import_ohlcv_csv, hm, finalizeImport, hempty]
  · intro hne
    simp [import_ohlcv_csv, hm, finalizeImport, hne]

/-- Witness for C5 at a concrete CSV whose header resolves. -/
theorem import_outcome_rules_witness :
    ((processRows ⟨some 0, none, none, 1, 2, 3, 4, 5⟩ DateFormat.Iso
        ["2024-01-02,1,1,1,1,0"] 2 ⟨[], [], 0⟩).validRows = [] →
      import_ohlcv_csv ["Date,Open,High,Low,Close,Volume",
          "2024-01-02,1,1,1,1,0"] DateFormat.Iso =
        ⟨false, false,
         (processRows ⟨some 0, none, none, 1, 2, 3, 4, 5⟩ DateFormat.Iso
           ["2024-01-02,1,1,1,1,0"] 2 ⟨[], [], 0⟩).dropped, [], [],
         ⟨0, zeroValidRowsMsg⟩ ::
           (processRows ⟨some 0, none, none, 1, 2, 3, 4, 5⟩ DateFormat.Iso
             ["2024-01-02,1,1,1,1,0"] 2 ⟨[], [], 0⟩).rowIssues⟩) ∧
    ((processRows ⟨some 0, none, none, 1, 2, 3, 4, 5⟩ DateFormat.Iso
        ["2024-01-02,1,1,1,1,0"] 2 ⟨[], [], 0⟩).validRows ≠ [] →
      (import_ohlcv_csv ["Date,Open,High,Low,Close,Volume",
          "2024-01-02,1,1,1,1,0"] DateFormat.Iso).success = true ∧
      ((import_ohlcv_csv ["Date,Open,High,Low,Close,Volume",
          "2024-01-02,1,1,1,1,0"] DateFormat.Iso).partial_success = true ↔
        0 < (processRows ⟨some 0, none, none, 1, 2, 3, 4, 5⟩ DateFormat.Iso
          ["2024-01-02,1,1,1,1,0"] 2 ⟨[], [], 0⟩).dropped) ∧
      (import_ohlcv_csv ["Date,Open,High,Low,Close,Volume",
          "2024-01-02,1,1,1,1,0"] DateFormat.Iso).errors = [] ∧
      (import_ohlcv_csv ["Date,Open,High,Low,Close,Volume",
          "2024-01-02,1,1,1,1,0"] DateFormat.Iso).warnings =
        (if hasDescent (processRows ⟨some 0, none, none, 1, 2, 3, 4, 5⟩
            DateFormat.Iso ["2024-01-02,1,1,1,1,0"] 2 ⟨[], [], 0⟩).validRows
          then [⟨0, unsortedMsg⟩] else []) ++
        (if 0 < (dedupRevLoop (sortRows
            (processRows ⟨some 0, none, none, 1, 2, 3, 4, 5⟩ DateFormat.Iso
              ["2024-01-02,1,1,1,1,0"] 2 ⟨[], [], 0⟩).validRows) [] 0).2
          then [⟨0, duplicateMsg (dedupRevLoop (sortRows
            (processRows ⟨some 0, none, none, 1, 2, 3, 4, 5⟩ DateFormat.Iso
              ["2024-01-02,1,1,1,1,0"] 2 ⟨[], [], 0⟩).validRows) [] 0).2⟩]
          else []) ++
        (if 0 < (processRows ⟨some 0, none, none, 1, 2, 3, 4, 5⟩
            DateFormat.Iso ["2024-01-02,1,1,1,1,0"] 2 ⟨[], [], 0⟩).dropped
          then (processRows ⟨some 0, none, none, 1, 2, 3, 4, 5⟩
            DateFormat.Iso ["2024-01-02,1,1,1,1,0"] 2 ⟨[], [], 0⟩).rowIssues
          else [])) :=
  import_outcome_rules "Date,Open,High,Low,Close,Volume"
    ["2024-01-02,1,1,1,1,0"] DateFormat.Iso
    ⟨some 0, none, none, 1, 2, 3, 4, 5⟩ (by decide)

/-- C6: a successful import yields strictly ascending, unique
timestamps: the candles are the keep-last deduplication of the stable
sort of the surviving rows; the file-level unsorted warning is present
iff the surviving rows were not already ascending; and the duplicate
warning carrying the number of removed rows is present iff at least one
duplicate was collapsed. -/
theorem import_sorted_unique (header : String) (rest : List String)
    (fmt : DateFormat) (m : ColumnMap)
    (hm : resolveColumns (parse_csv_line header) = some m)
    (hne : (processRows m fmt rest 2 ⟨[], [], 0⟩).validRows ≠ []) :
    (import_ohlcv_csv (header :: rest) fmt).success = true ∧
    List.Pairwise (fun a b : Candle => a.ts < b.ts)
      (import_ohlcv_csv (header :: rest) fmt).candles ∧
    (import_ohlcv_csv (header :: rest) fmt).candles =
      (dedupRevLoop (sortRows (processRows m fmt rest 2 ⟨[], [], 0⟩).validRows)
        [] 0).1 ∧
    ((⟨0, unsortedMsg⟩ : ImportIssue) ∈
        (import_ohlcv_csv (header :: rest) fmt).warnings ↔
      ¬ List.Chain' (fun a b : Candle => a.ts ≤ b.ts)
        (processRows m fmt rest 2 ⟨[], [], 0⟩).validRows) ∧
    ((⟨0, duplicateMsg (dedupRevLoop
        (sortRows (processRows m fmt rest 2 ⟨[], [], 0⟩).validRows) [] 0).2⟩ :
        ImportIssue) ∈ (import_ohlcv_csv (header :: rest) fmt).warnings ↔
      0 < (dedupRevLoop
        (sortRows (processRows m fmt rest 2 ⟨[], [], 0⟩).validRows) [] 0).2) := by
  have hiss : ∀ i ∈ (processRows m fmt rest 2 ⟨[], [], 0⟩).rowIssues, 2 ≤ i.line :=
    processRows_issue_lines m fmt rest 2 ⟨[], [], 0⟩ (by simp) (le_refl 2)
  have himp : import_ohlcv_csv (header :: rest) fmt =
      finalizeImport (processRows m fmt rest 2 ⟨[], [], 0⟩) := by
    simp [import_ohlcv_csv, hm]
  rw [himp, finalizeImport, if_neg hne]
  refine ⟨rfl, ?_, rfl, ?_, ?_⟩
  · exact dedupRevLoop_pairwise _ [] 0 (sortRows_sorted _) List.Pairwise.nil
      (fun c _ a ha => absurd ha (List.not_mem_nil a))
  · rw [← hasDescent_iff]
    by_cases hd : hasDescent (processRows m fmt rest 2 ⟨[], [], 0⟩).validRows
    · simp [hd]
    · simp only [hd, Bool.false_eq_true, if_false, List.nil_append, iff_false]
      intro hmem
      rcases List.mem_append.mp hmem with h1 | h2
      · split at h1
        · have h := List.mem_singleton.mp h1
          exact absurd (congrArg ImportIssue.message h)
            (unsortedMsg_ne_duplicateMsg _)
        · exact absurd h1 (List.not_mem_nil _)
      · split at h2
        · have := hiss _ h2
          simp at this
        · exact absurd h2 (List.not_mem_nil _)
  · by_cases hk : 0 < (dedupRevLoop
        (sortRows (processRows m fmt rest 2 ⟨[], [], 0⟩).validRows) [] 0).2
    · simp only [hk, if_true, iff_true]
      exact List.mem_append.mpr (Or.inl (List.mem_append.mpr
        (Or.inr (List.mem_singleton.mpr rfl))))
    · simp only [hk, if_false, List.append_nil, iff_false]
      intro hmem
      rcases List.mem_append.mp hmem with h1 | h2
      · split at h1
        · have h := List.mem_singleton.mp h1
          exact absurd (congrArg ImportIssue.message h).symm
            (unsortedMsg_ne_duplicateMsg _)
        · exact absurd h1 (List.not_mem_nil _)
      · split at h2
        · have := hiss _ h2
          simp at this
        · exact absurd h2 (List.not_mem_nil _)

/-- Evaluation rule for `parse_double_strict` from a computed
`strtodParse` decomposition. -/
theorem parse_double_strict_eq (text : String) (sg ip fp : Int) (fpl : ℕ)
    (ex : Int) (h1 : trimChars text.data ≠ [])
    (h2 : strtodParse (trimChars text.data) = some (sg, ip, fp, fpl, ex)) :
    parse_double_strict text =
      some ((sg : ℚ) * (((ip : ℚ) + (fp : ℚ) / pow10 fpl) * pow10 ex)) := by
  rw [parse_double_strict]
  simp only [if_neg h1, strtodAll, h2]

/-- The row loop on the single data row used by the witnesses below. -/
theorem processRows_single :
    processRows ⟨some 0, none, none, 1, 2, 3, 4, 5⟩ DateFormat.Iso
        ["2024-01-02,1,1,1,1,0"] 2 ⟨[], [], 0⟩ =
      ⟨[⟨1704153600, 1, 1, 1, 1, 0⟩], [], 0⟩ := by
  have hpd1 : parse_double_strict "1" = some 1 := by
    rw [parse_double_strict_eq "1" 1 1 0 0 0 (by decide) (by decide)]
    norm_num [pow10]
  have hpd0 : parse_double_strict "0" = some 0 := by
    rw [parse_double_strict_eq "0" 1 0 0 0 0 (by decide) (by decide)]
    norm_num [pow10]
  have hts : parse_timestamp_utc "2024-01-02" DateFormat.Iso =
      some 1704153600 := by decide
  have hfields : parse_csv_line "2024-01-02,1,1,1,1,0" =
      ["2024-01-02", "1", "1", "1", "1", "0"] := by decide
  simp only [processRows, processLine, hfields]
  rw [if_neg (by decide : ¬(trimString "2024-01-02,1,1,1,1,0" = ""))]
  rw [if_neg (by decide :
    ¬(["2024-01-02", "1", "1", "1", "1", "0"].length ≤
      maxIndex ⟨some 0, none, none, 1, 2, 3, 4, 5⟩))]
  rw [if_neg (by decide :
    ¬(ColumnMap.hasSplit ⟨some 0, none, none, 1, 2, 3, 4, 5⟩ = true))]
  simp only [List.getD, List.get?, Option.getD, hts, hpd1, hpd0]
  rw [if_neg (by norm_num : ¬((1:ℚ) ≤ 0 ∨ (1:ℚ) ≤ 0 ∨ (1:ℚ) ≤ 0 ∨ (1:ℚ) ≤ 0))]
  rw [if_neg (by norm_num : ¬((0:ℚ) < 0))]
  simp

/-- Witness for C6 at a concrete CSV with one surviving row. -/
theorem import_sorted_unique_witness :
    (import_ohlcv_csv ["Date,Open,High,Low,Close,Volume",
        "2024-01-02,1,1,1,1,0"] DateFormat.Iso).success = true ∧
    List.Pairwise (fun a b : Candle => a.ts < b.ts)
      (import_ohlcv_csv ["Date,Open,High,Low,Close,Volume",
        "2024-01-02,1,1,1,1,0"] DateFormat.Iso).candles ∧
    (import_ohlcv_csv ["Date,Open,High,Low,Close,Volume",
        "2024-01-02,1,1,1,1,0"] DateFormat.Iso).candles =
      (dedupRevLoop (sortRows (processRows ⟨some 0, none, none, 1, 2, 3, 4, 5⟩
        DateFormat.Iso ["2024-01-02,1,1,1,1,0"] 2 ⟨[], [], 0⟩).validRows)
        [] 0).1 ∧
    ((⟨0, unsortedMsg⟩ : ImportIssue) ∈
        (import_ohlcv_csv ["Date,Open,High,Low,Close,Volume",
          "2024-01-02,1,1,1,1,0"] DateFormat.Iso).warnings ↔
      ¬ List.Chain' (fun a b : Candle => a.ts ≤ b.ts)
        (processRows ⟨some 0, none, none, 1, 2, 3, 4, 5⟩ DateFormat.Iso
          ["2024-01-02,1,1,1,1,0"] 2 ⟨[], [], 0⟩).validRows) ∧
    ((⟨0, duplicateMsg (dedupRevLoop (sortRows
        (processRows ⟨some 0, none, none, 1, 2, 3, 4, 5⟩ DateFormat.Iso
          ["2024-01-02,1,1,1,1,0"] 2 ⟨[], [], 0⟩).validRows) [] 0).2⟩ :
        ImportIssue) ∈
        (import_ohlcv_csv ["Date,Open,High,Low,Close,Volume",
          "2024-01-02,1,1,1,1,0"] DateFormat.Iso).warnings ↔
      0 < (dedupRevLoop (sortRows
        (processRows ⟨some 0, none, none, 1, 2, 3, 4, 5⟩ DateFormat.Iso
          ["2024-01-02,1,1,1,1,0"] 2 ⟨[], [], 0⟩).validRows) [] 0).2) :=
  import_sorted_unique "Date,Open,High,Low,Close,Volume"
    ["2024-01-02,1,1,1,1,0"] DateFormat.Iso
    ⟨some 0, none, none, 1, 2, 3, 4, 5⟩ (by decide)
    (by rw [processRows_single]; simp)

/-! ### BacktestEngine theorems -/

theorem clamp01_nonneg (x : ℚ) : 0 ≤ clamp01 x := by
  unfold clamp01
  by_cases h1 : x < 0
  · rw [if_pos h1]
  · rw [if_neg h1]
    by_cases h2 : 1 < x
    · rw [if_pos h2]
      exact zero_le_one
    · rw [if_neg h2]
      exact le_of_not_lt h1

theorem clamp01_le_one (x : ℚ) : clamp01 x ≤ 1 := by
  unfold clamp01
  by_cases h1 : x < 0
  · rw [if_pos h1]
    exact zero_le_one
  · rw [if_neg h1]
    by_cases h2 : 1 < x
    · rw [if_pos h2]
    · rw [if_neg h2]
      exact le_of_not_lt h2

theorem getD_eq_get {α : Type} (l : List α) (d : α) (i : ℕ)
    (h : i < l.length) : l.getD i d = l.get ⟨i, h⟩ := by
  simp [List.getD, List.get?_eq_get h, List.getElem?_eq_getElem h]

theorem getD_mem {α : Type} (l : List α) (i : ℕ) (d : α)
    (h : i < l.length) : l.getD i d ∈ l := by
  rw [getD_eq_get l d i h]
  exact l.get_mem i h

theorem signalStep_preserves (params : SmaParams) (n i : ℕ)
    (s : EngineState) :
    (signalStep params n i s).cash = s.cash ∧
    (signalStep params n i s).qty = s.qty ∧
    (signalStep params n i s).equity = s.equity ∧
    (signalStep params n i s).trades = s.trades ∧
    (signalStep params n i s).open_entry_time = s.open_entry_time ∧
    (signalStep params n i s).open_entry_price = s.open_entry_price := by
  unfold signalStep
  dsimp only
  repeat' split
  all_goals exact ⟨rfl, rfl, rfl, rfl, rfl, rfl⟩

theorem riskStep_preserves (settings : BacktestSettings) (n i : ℕ)
    (bar : Candle) (s : EngineState) :
    (riskStep settings n i bar s).cash = s.cash ∧
    (riskStep settings n i bar s).qty = s.qty ∧
    (riskStep settings n i bar s).equity = s.equity ∧
    (riskStep settings n i bar s).trades = s.trades ∧
    (riskStep settings n i bar s).open_entry_time = s.open_entry_time ∧
    (riskStep settings n i bar s).open_entry_price = s.open_entry_price := by
  unfold riskStep
  dsimp only
  repeat' split
  all_goals exact ⟨rfl, rfl, rfl, rfl, rfl, rfl⟩

theorem updateSums_preserves (candles : List Candle) (params : SmaParams)
    (i : ℕ) (bar : Candle) (s : EngineState) :
    (updateSums candles params i bar s).cash = s.cash ∧
    (updateSums candles params i bar s).qty = s.qty ∧
    (updateSums candles params i bar s).equity = s.equity ∧
    (updateSums candles params i bar s).trades = s.trades ∧
    (updateSums candles params i bar s).open_entry_time = s.open_entry_time ∧
    (updateSums candles params i bar s).open_entry_price =
      s.open_entry_price ∧
    (updateSums candles params i bar s).pending = s.pending := by
  exact ⟨rfl, rfl, rfl, rfl, rfl, rfl, rfl⟩

/-- Executing the pending action preserves non-negative cash and
quantity: a buy spends at most
`cash * clamp01(position_size_pct) ≤ cash` (the floored quantity times
`open * (1 + commission)` never exceeds the budget), and a sell only
credits cash (commission below 100%). The equity samples are
untouched. -/
theorem execPending_nonneg (settings : BacktestSettings) (bar : Candle)
    (s : EngineState) (hbar : 0 < bar.o)
    (hc0 : 0 ≤ settings.commission_pct)
    (hc1 : settings.commission_pct < 1)
    (hcash : 0 ≤ s.cash) (hqty : 0 ≤ s.qty) :
    0 ≤ (execPending settings bar s).cash ∧
    0 ≤ (execPending settings bar s).qty ∧
    (execPending settings bar s).equity = s.equity := by
  unfold execPending
  cases hp : s.pending with
  | None => exact ⟨hcash, hqty, rfl⟩
  | Buy =>
    dsimp only
    have hdenom : 0 < bar.o * (1 + settings.commission_pct) := by
      have : 0 < 1 + settings.commission_pct := by linarith
      positivity
    rw [if_pos hdenom]
    by_cases hq : 0 < ⌊s.cash * clamp01 settings.position_size_pct /
        (bar.o * (1 + settings.commission_pct))⌋
    · rw [if_pos hq]
      refine ⟨?_, by exact_mod_cast le_of_lt hq, rfl⟩
      have hbudget : s.cash * clamp01 settings.position_size_pct ≤ s.cash :=
        mul_le_of_le_one_right hcash (clamp01_le_one _)
      have hfl : (⌊s.cash * clamp01 settings.position_size_pct /
          (bar.o * (1 + settings.commission_pct))⌋ : ℚ) ≤
          s.cash * clamp01 settings.position_size_pct /
            (bar.o * (1 + settings.commission_pct)) := Int.floor_le _
      have hmul : (⌊s.cash * clamp01 settings.position_size_pct /
          (bar.o * (1 + settings.commission_pct))⌋ : ℚ) *
            (bar.o * (1 + settings.commission_pct)) ≤
          s.cash * clamp01 settings.position_size_pct :=
        (le_div_iff₀ hdenom).mp hfl
      have hexp : (⌊s.cash * clamp01 settings.position_size_pct /
          (bar.o * (1 + settings.commission_pct))⌋ : ℚ) * bar.o +
            (⌊s.cash * clamp01 settings.position_size_pct /
              (bar.o * (1 + settings.commission_pct))⌋ : ℚ) * bar.o *
              settings.commission_pct =
          (⌊s.cash * clamp01 settings.position_size_pct /
            (bar.o * (1 + settings.commission_pct))⌋ : ℚ) *
            (bar.o * (1 + settings.commission_pct)) := by ring
      dsimp only
      linarith
    · rw [if_neg hq]
      exact ⟨hcash, hqty, rfl⟩
  | Sell =>
    dsimp only
    by_cases hq : 0 < s.qty
    · rw [if_pos hq]
      refine ⟨?_, le_refl 0, rfl⟩
      have hq' : (0 : ℚ) < (s.qty : ℚ) := by exact_mod_cast hq
      have hnn : 0 ≤ (s.qty : ℚ) * bar.o - (s.qty : ℚ) * bar.o *
          settings.commission_pct := by
        nlinarith [mul_nonneg (mul_nonneg hq'.le hbar.le)
          (sub_nonneg.mpr hc1.le)]
      dsimp only
      linarith
    · rw [if_neg hq]
      exact ⟨hcash, hqty, rfl⟩

/-- The invariant of the bar loop needed for the drawdown bounds:
cash and quantity stay non-negative, one equity sample is pushed per
bar, and every sample is non-negative. -/
theorem loopTo_nonneg (candles : List Candle) (params : SmaParams)
    (settings : BacktestSettings)
    (hcand : ∀ c ∈ candles, 0 < c.o ∧ 0 < c.h ∧ 0 < c.l ∧ 0 < c.c ∧ 0 ≤ c.v)
    (hcash : 0 ≤ settings.starting_cash)
    (hc0 : 0 ≤ settings.commission_pct)
    (hc1 : settings.commission_pct < 1) :
    ∀ i, i ≤ candles.length →
      0 ≤ (loopTo candles params settings i).cash ∧
      0 ≤ (loopTo candles params settings i).qty ∧
      (loopTo candles params settings i).equity.length = i ∧
      (∀ e ∈ (loopTo candles params settings i).equity, 0 ≤ e) := by
  intro i
  induction i with
  | zero =>
    intro _
    refine ⟨hcash, le_refl 0, rfl, ?_⟩
    intro e he
    exact absurd he (List.not_mem_nil e)
  | succ i ih =>
    intro hle
    have hi : i < candles.length := by omega
    obtain ⟨hcashI, hqtyI, hlenI, hposI⟩ := ih (by omega)
    have hbar := hcand _ (getD_mem candles i default hi)
    obtain ⟨hE1, hE2, hE3⟩ := execPending_nonneg settings
      (candles.getD i default) (loopTo candles params settings i)
      hbar.1 hc0 hc1 hcashI hqtyI
    set E := execPending settings (candles.getD i default)
      (loopTo candles params settings i) with hE
    set X := riskStep settings candles.length i (candles.getD i default)
      (signalStep params candles.length i
        (updateSums candles params i (candles.getD i default) E)) with hX
    have hx1 : X.cash = E.cash := by
      rw [hX, (riskStep_preserves _ _ _ _ _).1,
        (signalStep_preserves _ _ _ _).1]
      exact (updateSums_preserves _ _ _ _ _).1
    have hx2 : X.qty = E.qty := by
      rw [hX, (riskStep_preserves _ _ _ _ _).2.1,
        (signalStep_preserves _ _ _ _).2.1]
      exact (updateSums_preserves _ _ _ _ _).2.1
    have hx3 : X.equity = (loopTo candles params settings i).equity := by
      rw [hX, (riskStep_preserves _ _ _ _ _).2.2.1,
        (signalStep_preserves _ _ _ _).2.2.1,
        (updateSums_preserves _ _ _ _ _).2.2.1]
      exact hE3
    have hstep : loopTo candles params settings (i + 1) =
        markEquity (candles.getD i default) X := by
      rw [loopTo, stepBar]
    rw [hstep, markEquity]
    dsimp only
    rw [hx1, hx2, hx3]
    have hq' : (0 : ℚ) ≤ (E.qty : ℚ) := by exact_mod_cast hE2
    have hc : 0 < (candles.getD i default).c := hbar.2.2.2.1
    refine ⟨hE1, hE2, ?_, ?_⟩
    · rw [List.length_append, hlenI]
      rfl
    · intro e he
      rcases List.mem_append.mp he with he' | he'
      · exact hposI e he'
      · rcases List.mem_singleton.mp he' with rfl
        nlinarith

theorem peakUpdate_ge (peak : Option ℚ) (e : ℚ) : e ≤ peakUpdate peak e := by
  cases peak with
  | none => exact le_refl e
  | some p => exact le_max_right p e

/-- The drawdown pass over non-negative equity samples: every drawdown
lies in `[-1, 0]`, and the returned running minimum is the minimum of
the initial accumulator and the produced drawdowns. -/
theorem ddLoop_spec : ∀ (eq : List ℚ) (peak : Option ℚ) (m0 : ℚ),
    (∀ e ∈ eq, 0 ≤ e) →
    (∀ d ∈ (ddLoop eq peak m0).1, -1 ≤ d ∧ d ≤ 0) ∧
    ((ddLoop eq peak m0).2 = m0 ∨
      (ddLoop eq peak m0).2 ∈ (ddLoop eq peak m0).1) ∧
    (ddLoop eq peak m0).2 ≤ m0 ∧
    (∀ d ∈ (ddLoop eq peak m0).1, (ddLoop eq peak m0).2 ≤ d) := by
  intro eq
  induction eq with
  | nil =>
    intro peak m0 _
    simp [ddLoop]
  | cons e rest ih =>
    intro peak m0 hpos
    have he0 : 0 ≤ e := hpos e (List.mem_cons_self e rest)
    have hrest : ∀ x ∈ rest, 0 ≤ x :=
      fun x hx => hpos x (List.mem_cons_of_mem _ hx)
    have hep : e ≤ peakUpdate peak e := peakUpdate_ge peak e
    rw [ddLoop]
    dsimp only
    set pk := peakUpdate peak e with hpk
    set dd := if 0 < pk then (e - pk) / pk else 0 with hdd
    have hddb : -1 ≤ dd ∧ dd ≤ 0 := by
      rw [hdd]
      split
      · rename_i hpk2
        constructor
        · rw [le_div_iff₀ hpk2]
          linarith
        · apply div_nonpos_of_nonpos_of_nonneg
          · linarith
          · exact hpk2.le
      · exact ⟨by norm_num, le_refl 0⟩
    obtain ⟨ihb, ihmem, ihle, ihmin⟩ := ih (some pk) (min m0 dd) hrest
    refine ⟨?_, ?_, ?_, ?_⟩
    · intro d hd
      rcases List.mem_cons.mp hd with rfl | hd'
      · exact hddb
      · exact ihb d hd'
    · rcases ihmem with h | h
      · rcases le_total m0 dd with hmd | hmd
        · left
          rw [h, min_eq_left hmd]
        · right
          rw [h, min_eq_right hmd]
          exact List.mem_cons_self _ _
      · right
        exact List.mem_cons_of_mem _ h
    · exact le_trans ihle (min_le_left m0 dd)
    · intro d hd
      rcases List.mem_cons.mp hd with rfl | hd'
      · exact le_trans ihle (min_le_right m0 dd)
      · exact ihmin d hd'

/-- The forced close leaves the equity samples non-negative and
non-empty: a credited sale keeps cash non-negative, and only the final
sample is replaced. -/
theorem forceClose_equity (candles : List Candle)
    (settings : BacktestSettings) (s : EngineState)
    (hlast : 0 < (candles.getLast?.getD default).c)
    (hc1 : settings.commission_pct < 1)
    (hcash : 0 ≤ s.cash)
    (hpos : ∀ e ∈ s.equity, 0 ≤ e) (hne : s.equity ≠ []) :
    (∀ e ∈ (forceClose candles settings s).equity, 0 ≤ e) ∧
    (forceClose candles settings s).equity ≠ [] := by
  unfold forceClose
  by_cases hq : 0 < s.qty
  · rw [if_pos hq]
    dsimp only
    have hq' : (0 : ℚ) < (s.qty : ℚ) := by exact_mod_cast hq
    have hnn : 0 ≤ s.cash + ((s.qty : ℚ) * (candles.getLast?.getD default).c -
        (s.qty : ℚ) * (candles.getLast?.getD default).c *
          settings.commission_pct) := by
      nlinarith [mul_nonneg (mul_nonneg hq'.le hlast.le)
        (sub_nonneg.mpr hc1.le)]
    constructor
    · intro e he
      rcases List.mem_append.mp he with he' | he'
      · exact hpos e (List.dropLast_subset s.equity he')
      · rcases List.mem_singleton.mp he' with rfl
        exact hnn
    · simp
  · rw [if_neg hq]
    exact ⟨hpos, hne⟩

theorem ddLoop_length : ∀ (eq : List ℚ) (peak : Option ℚ) (m0 : ℚ),
    (ddLoop eq peak m0).1.length = eq.length
  | [], _, _ => rfl
  | e :: rest, peak, m0 => by
    rw [ddLoop]
    dsimp only
    rw [List.length_cons, List.length_cons, ddLoop_length rest]

theorem getLastD_mem {α : Type} (l : List α) (d : α) (h : l ≠ []) :
    l.getLast?.getD d ∈ l := by
  cases hl : l.getLast? with
  | none => exact absurd (List.getLast?_eq_none_iff.mp hl) h
  | some a =>
    rw [Option.getD_some]
    obtain ⟨hne', rfl⟩ :=
      List.mem_getLast?_eq_getLast (Option.mem_def.mpr hl)
    exact List.getLast_mem hne'

/-- C1: `run_sma_backtest` is a pure function of its three inputs: two
invocations on identical inputs produce identical `BacktestResult`
values — equal equity, drawdown, trades, metrics, and warnings — with
no state retained between calls (the embedding is a function, so the
output is fully determined by the arguments). -/
theorem run_sma_backtest_deterministic (c c' : List Candle)
    (p p' : SmaParams) (s s' : BacktestSettings)
    (hc : c = c') (hp : p = p') (hs : s = s') :
    run_sma_backtest c p s = run_sma_backtest c' p' s' ∧
    (run_sma_backtest c p s).equity = (run_sma_backtest c' p' s').equity ∧
    (run_sma_backtest c p s).drawdown =
      (run_sma_backtest c' p' s').drawdown ∧
    (run_sma_backtest c p s).trades = (run_sma_backtest c' p' s').trades ∧
    (run_sma_backtest c p s).metrics = (run_sma_backtest c' p' s').metrics ∧
    (run_sma_backtest c p s).warnings =
      (run_sma_backtest c' p' s').warnings := by
  subst hc
  subst hp
  subst hs
  exact ⟨rfl, rfl, rfl, rfl, rfl, rfl⟩

/-- Witness for C1 at concrete inputs. -/
theorem run_sma_backtest_deterministic_witness :
    run_sma_backtest [⟨1, 10, 10, 10, 10, 0⟩] ⟨2, 3⟩ ⟨10000, 0, 1, 0, 0⟩ =
      run_sma_backtest [⟨1, 10, 10, 10, 10, 0⟩] ⟨2, 3⟩ ⟨10000, 0, 1, 0, 0⟩ ∧
    (run_sma_backtest [⟨1, 10, 10, 10, 10, 0⟩] ⟨2, 3⟩
        ⟨10000, 0, 1, 0, 0⟩).equity =
      (run_sma_backtest [⟨1, 10, 10, 10, 10, 0⟩] ⟨2, 3⟩
        ⟨10000, 0, 1, 0, 0⟩).equity ∧
    (run_sma_backtest [⟨1, 10, 10, 10, 10, 0⟩] ⟨2, 3⟩
        ⟨10000, 0, 1, 0, 0⟩).drawdown =
      (run_sma_backtest [⟨1, 10, 10, 10, 10, 0⟩] ⟨2, 3⟩
        ⟨10000, 0, 1, 0, 0⟩).drawdown ∧
    (run_sma_backtest [⟨1, 10, 10, 10, 10, 0⟩] ⟨2, 3⟩
        ⟨10000, 0, 1, 0, 0⟩).trades =
      (run_sma_backtest [⟨1, 10, 10, 10, 10, 0⟩] ⟨2, 3⟩
        ⟨10000, 0, 1, 0, 0⟩).trades ∧
    (run_sma_backtest [⟨1, 10, 10, 10, 10, 0⟩] ⟨2, 3⟩
        ⟨10000, 0, 1, 0, 0⟩).metrics =
      (run_sma_backtest [⟨1, 10, 10, 10, 10, 0⟩] ⟨2, 3⟩
        ⟨10000, 0, 1, 0, 0⟩).metrics ∧
    (run_sma_backtest [⟨1, 10, 10, 10, 10, 0⟩] ⟨2, 3⟩
        ⟨10000, 0, 1, 0, 0⟩).warnings =
      (run_sma_backtest [⟨1, 10, 10, 10, 10, 0⟩] ⟨2, 3⟩
        ⟨10000, 0, 1, 0, 0⟩).warnings :=
  run_sma_backtest_deterministic _ _ _ _ _ _ rfl rfl rfl

/-- C2: for a non-empty series satisfying the Candle invariant with
strictly ascending timestamps, valid SMA parameters, positive starting
cash, and commission in `[0, 1)`: every drawdown sample lies in
`[-1, 0]`, and `max_drawdown_pct` is the minimum of the drawdown
sequence times 100 (exactly, in the rational model). -/
theorem run_drawdown_spec (candles : List Candle) (params : SmaParams)
    (settings : BacktestSettings)
    (hne : candles ≠ [])
    (hcand : ∀ c ∈ candles, 0 < c.o ∧ 0 < c.h ∧ 0 < c.l ∧ 0 < c.c ∧ 0 ≤ c.v)
    (_hasc : List.Pairwise (fun a b : Candle => a.ts < b.ts) candles)
    (hv : params.is_valid = true)
    (hsc : 0 < settings.starting_cash)
    (hc0 : 0 ≤ settings.commission_pct)
    (hc1 : settings.commission_pct < 1) :
    (∀ d ∈ (run_sma_backtest candles params settings).drawdown,
      -1 ≤ d ∧ d ≤ 0) ∧
    ∃ dmin, dmin ∈ (run_sma_backtest candles params settings).drawdown ∧
      (run_sma_backtest candles params settings).metrics.max_drawdown_pct =
        dmin * 100 ∧
      ∀ d ∈ (run_sma_backtest candles params settings).drawdown, dmin ≤ d := by
  have hvne : ¬(params.is_valid = false) := by simp [hv]
  obtain ⟨hcash, hqty, hlen, hpos⟩ := loopTo_nonneg candles params settings
    hcand hsc.le hc0 hc1 candles.length (le_refl _)
  have hlastc : 0 < (candles.getLast?.getD default).c :=
    (hcand _ (getLastD_mem candles default hne)).2.2.2.1
  have hloopne : (runLoop candles params settings).equity ≠ [] := by
    rw [runLoop]
    intro h
    rw [h] at hlen
    simp at hlen
    exact hne (List.length_eq_zero.mp hlen.symm)
  obtain ⟨hfpos, hfne⟩ := forceClose_equity candles settings
    (runLoop candles params settings) hlastc hc1 hcash hpos hloopne
  obtain ⟨hb, hmem, hle0, hmin⟩ := ddLoop_spec
    (forceClose candles settings (runLoop candles params settings)).equity
    none 0 hfpos
  have hddne : (ddLoop (forceClose candles settings
      (runLoop candles params settings)).equity none 0).1 ≠ [] := by
    intro h
    have := ddLoop_length (forceClose candles settings
      (runLoop candles params settings)).equity none 0
    rw [h] at this
    exact hfne (List.length_eq_zero.mp this.symm)
  rw [run_sma_backtest, if_neg hne, if_neg hvne]
  dsimp only
  refine ⟨hb, ?_⟩
  rcases hmem with h0 | hm
  · obtain ⟨d0, hd0⟩ := List.exists_mem_of_ne_nil _ hddne
    refine ⟨d0, hd0, ?_, ?_⟩
    · have h1 : (ddLoop (forceClose candles settings
          (runLoop candles params settings)).equity none 0).2 ≤ d0 :=
        hmin d0 hd0
      have h2 : d0 ≤ 0 := (hb d0 hd0).2
      have h3 : d0 = (ddLoop (forceClose candles settings
          (runLoop candles params settings)).equity none 0).2 := by
        rw [h0] at h1 ⊢
        linarith
      rw [← h3]
    · intro d hd
      have h1 := hmin d hd
      have h2 := (hb d hd).1
      have h3 : d0 ≤ 0 := (hb d0 hd0).2
      have h4 := hmin d0 hd0
      rw [h0] at h1 h4
      linarith
  · exact ⟨_, hm, rfl, hmin⟩

/-- Witness for C2 at a concrete one-candle series. -/
theorem run_drawdown_spec_witness :
    (∀ d ∈ (run_sma_backtest [⟨1, 10, 10, 10, 10, 0⟩] ⟨1, 2⟩
        ⟨10000, 0, 1, 0, 0⟩).drawdown, -1 ≤ d ∧ d ≤ 0) ∧
    ∃ dmin, dmin ∈ (run_sma_backtest [⟨1, 10, 10, 10, 10, 0⟩] ⟨1, 2⟩
        ⟨10000, 0, 1, 0, 0⟩).drawdown ∧
      (run_sma_backtest [⟨1, 10, 10, 10, 10, 0⟩] ⟨1, 2⟩
        ⟨10000, 0, 1, 0, 0⟩).metrics.max_drawdown_pct = dmin * 100 ∧
      ∀ d ∈ (run_sma_backtest [⟨1, 10, 10, 10, 10, 0⟩] ⟨1, 2⟩
        ⟨10000, 0, 1, 0, 0⟩).drawdown, dmin ≤ d :=
  run_drawdown_spec [⟨1, 10, 10, 10, 10, 0⟩] ⟨1, 2⟩ ⟨10000, 0, 1, 0, 0⟩
    (by decide)
    (by intro c hc
        rcases List.mem_singleton.mp hc with rfl
        refine ⟨by norm_num, by norm_num, by norm_num, by norm_num,
          by norm_num⟩)
    (by simp)
    (by decide)
    (by norm_num)
    (by norm_num)
    (by norm_num)

/-- C7: when a position is still open after the per-bar loop, the
engine force-closes it at the final bar's close: exactly one `Trade` is
appended whose `exit_time` is the final candle's timestamp and whose
`exit_price` is the final close, the final equity sample is overwritten
with the realized cash, and a warning containing "force-closed" is
emitted. -/
theorem run_force_close (candles : List Candle) (params : SmaParams)
    (settings : BacktestSettings)
    (hne : candles ≠ []) (hv : params.is_valid = true)
    (hopen : 0 < (runLoop candles params settings).qty) :
    (run_sma_backtest candles params settings).trades =
      (runLoop candles params settings).trades ++
        [closeTrade settings
          (runLoop candles params settings).open_entry_time
          (runLoop candles params settings).open_entry_price
          (candles.getLast?.getD default).ts
          (candles.getLast?.getD default).c
          (runLoop candles params settings).qty] ∧
    (∃ t, (run_sma_backtest candles params settings).trades.getLast? =
        some t ∧
      t.exit_time = (candles.getLast?.getD default).ts ∧
      t.exit_price = (candles.getLast?.getD default).c) ∧
    (run_sma_backtest candles params settings).equity.getLast? =
      some ((runLoop candles params settings).cash +
        (((runLoop candles params settings).qty : ℚ) *
            (candles.getLast?.getD default).c -
          ((runLoop candles params settings).qty : ℚ) *
            (candles.getLast?.getD default).c * settings.commission_pct)) ∧
    forceCloseMsg ∈ (run_sma_backtest candles params settings).warnings ∧
    List.IsInfix "force-closed".toList forceCloseMsg.toList := by
  have hvne : ¬(params.is_valid = false) := by simp [hv]
  rw [run_sma_backtest, if_neg hne, if_neg hvne]
  dsimp only
  rw [forceClose, if_pos hopen]
  dsimp only
  refine ⟨rfl, ?_, ?_, ?_, by decide⟩
  · exact ⟨closeTrade settings
      (runLoop candles params settings).open_entry_time
      (runLoop candles params settings).open_entry_price
      (candles.getLast?.getD default).ts
      (candles.getLast?.getD default).c
      (runLoop candles params settings).qty,
      List.getLast?_concat _, rfl, rfl⟩
  · rw [List.getLast?_concat]
  · exact List.mem_append.mpr (Or.inr (List.mem_singleton.mpr rfl))

/-- Witness for C7: a four-bar series with a cross-up on the third bar,
a buy filled on the fourth, and the dataset ending while long. -/
theorem run_force_close_witness :
    (run_sma_backtest [⟨1, 10, 10, 10, 10, 0⟩, ⟨2, 10, 10, 10, 10, 0⟩,
        ⟨3, 20, 20, 20, 20, 0⟩, ⟨4, 20, 20, 20, 20, 0⟩] ⟨1, 2⟩
        ⟨10000, 0, 1, 0, 0⟩).trades =
      (runLoop [⟨1, 10, 10, 10, 10, 0⟩, ⟨2, 10, 10, 10, 10, 0⟩,
        ⟨3, 20, 20, 20, 20, 0⟩, ⟨4, 20, 20, 20, 20, 0⟩] ⟨1, 2⟩
        ⟨10000, 0, 1, 0, 0⟩).trades ++
        [closeTrade ⟨10000, 0, 1, 0, 0⟩
          (runLoop [⟨1, 10, 10, 10, 10, 0⟩, ⟨2, 10, 10, 10, 10, 0⟩,
            ⟨3, 20, 20, 20, 20, 0⟩, ⟨4, 20, 20, 20, 20, 0⟩] ⟨1, 2⟩
            ⟨10000, 0, 1, 0, 0⟩).open_entry_time
          (runLoop [⟨1, 10, 10, 10, 10, 0⟩, ⟨2, 10, 10, 10, 10, 0⟩,
            ⟨3, 20, 20, 20, 20, 0⟩, ⟨4, 20, 20, 20, 20, 0⟩] ⟨1, 2⟩
            ⟨10000, 0, 1, 0, 0⟩).open_entry_price
          (([⟨1, 10, 10, 10, 10, 0⟩, ⟨2, 10, 10, 10, 10, 0⟩,
            ⟨3, 20, 20, 20, 20, 0⟩, ⟨4, 20, 20, 20, 20, 0⟩] :
              List Candle).getLast?.getD default).ts
          (([⟨1, 10, 10, 10, 10, 0⟩, ⟨2, 10, 10, 10, 10, 0⟩,
            ⟨3, 20, 20, 20, 20, 0⟩, ⟨4, 20, 20, 20, 20, 0⟩] :
              List Candle).getLast?.getD default).c
          (runLoop [⟨1, 10, 10, 10, 10, 0⟩, ⟨2, 10, 10, 10, 10, 0⟩,
            ⟨3, 20, 20, 20, 20, 0⟩, ⟨4, 20, 20, 20, 20, 0⟩] ⟨1, 2⟩
            ⟨10000, 0, 1, 0, 0⟩).qty] ∧
    (∃ t, (run_sma_backtest [⟨1, 10, 10, 10, 10, 0⟩, ⟨2, 10, 10, 10, 10, 0⟩,
        ⟨3, 20, 20, 20, 20, 0⟩, ⟨4, 20, 20, 20, 20, 0⟩] ⟨1, 2⟩
        ⟨10000, 0, 1, 0, 0⟩).trades.getLast? = some t ∧
      t.exit_time = (([⟨1, 10, 10, 10, 10, 0⟩, ⟨2, 10, 10, 10, 10, 0⟩,
        ⟨3, 20, 20, 20, 20, 0⟩, ⟨4, 20, 20, 20, 20, 0⟩] :
          List Candle).getLast?.getD default).ts ∧
      t.exit_price = (([⟨1, 10, 10, 10, 10, 0⟩, ⟨2, 10, 10, 10, 10, 0⟩,
        ⟨3, 20, 20, 20, 20, 0⟩, ⟨4, 20, 20, 20, 20, 0⟩] :
          List Candle).getLast?.getD default).c) ∧
    (run_sma_backtest [⟨1, 10, 10, 10, 10, 0⟩, ⟨2, 10, 10, 10, 10, 0⟩,
        ⟨3, 20, 20, 20, 20, 0⟩, ⟨4, 20, 20, 20, 20, 0⟩] ⟨1, 2⟩
        ⟨10000, 0, 1, 0, 0⟩).equity.getLast? =
      some ((runLoop [⟨1, 10, 10, 10, 10, 0⟩, ⟨2, 10, 10, 10, 10, 0⟩,
          ⟨3, 20, 20, 20, 20, 0⟩, ⟨4, 20, 20, 20, 20, 0⟩] ⟨1, 2⟩
          ⟨10000, 0, 1, 0, 0⟩).cash +
        (((runLoop [⟨1, 10, 10, 10, 10, 0⟩, ⟨2, 10, 10, 10, 10, 0⟩,
            ⟨3, 20, 20, 20, 20, 0⟩, ⟨4, 20, 20, 20, 20, 0⟩] ⟨1, 2⟩
            ⟨10000, 0, 1, 0, 0⟩).qty : ℚ) *
            (([⟨1, 10, 10, 10, 10, 0⟩, ⟨2, 10, 10, 10, 10, 0⟩,
              ⟨3, 20, 20, 20, 20, 0⟩, ⟨4, 20, 20, 20, 20, 0⟩] :
                List Candle).getLast?.getD default).c -
          ((runLoop [⟨1, 10, 10, 10, 10, 0⟩, ⟨2, 10, 10, 10, 10, 0⟩,
            ⟨3, 20, 20, 20, 20, 0⟩, ⟨4, 20, 20, 20, 20, 0⟩] ⟨1, 2⟩
            ⟨10000, 0, 1, 0, 0⟩).qty : ℚ) *
            (([⟨1, 10, 10, 10, 10, 0⟩, ⟨2, 10, 10, 10, 10, 0⟩,
              ⟨3, 20, 20, 20, 20, 0⟩, ⟨4, 20, 20, 20, 20, 0⟩] :
                List Candle).getLast?.getD default).c * (0 : ℚ))) ∧
    forceCloseMsg ∈ (run_sma_backtest [⟨1, 10, 10, 10, 10, 0⟩,
        ⟨2, 10, 10, 10, 10, 0⟩, ⟨3, 20, 20, 20, 20, 0⟩,
        ⟨4, 20, 20, 20, 20, 0⟩] ⟨1, 2⟩ ⟨10000, 0, 1, 0, 0⟩).warnings ∧
    List.IsInfix "force-closed".toList forceCloseMsg.toList :=
  run_force_close [⟨1, 10, 10, 10, 10, 0⟩, ⟨2, 10, 10, 10, 10, 0⟩,
      ⟨3, 20, 20, 20, 20, 0⟩, ⟨4, 20, 20, 20, 20, 0⟩] ⟨1, 2⟩
    ⟨10000, 0, 1, 0, 0⟩ (by decide) (by decide)
    (by norm_num [runLoop, loopTo, stepBar, execPending, updateSums,
      signalStep, riskStep, markEquity, initState, clamp01, closeTrade,
      List.getD, List.get?, belowSlowMsg])

theorem ts_adj (candles : List Candle)
    (hasc : List.Pairwise (fun a b : Candle => a.ts < b.ts) candles)
    (j : ℕ) (h : j + 1 < candles.length) :
    (candles.getD j default).ts < (candles.getD (j + 1) default).ts := by
  rw [getD_eq_get candles default j (by omega),
    getD_eq_get candles default (j + 1) h]
  exact List.pairwise_iff_get.mp hasc ⟨j, by omega⟩ ⟨j + 1, h⟩
    (by simp [Fin.lt_def])

theorem getLastD_eq_getD {α : Type} (l : List α) (d : α) :
    l.getLast?.getD d = l.getD (l.length - 1) d := by
  rw [List.getLast?_eq_getElem?]
  simp [List.getD]

/-- What one pending-action execution can do to the position and trade
ledger: nothing; or fill a buy (position opened at the bar's
timestamp); or close a held position, appending exactly the trade built
from the recorded entry and the bar's open. -/
theorem execPending_spec (settings : BacktestSettings) (bar : Candle)
    (s : EngineState) :
    ((execPending settings bar s).trades = s.trades ∧
     (execPending settings bar s).qty = s.qty ∧
     (execPending settings bar s).open_entry_time = s.open_entry_time) ∨
    ((execPending settings bar s).trades = s.trades ∧
     0 < (execPending settings bar s).qty ∧
     (execPending settings bar s).open_entry_time = bar.ts) ∨
    (0 < s.qty ∧
     (execPending settings bar s).trades = s.trades ++
       [closeTrade settings s.open_entry_time s.open_entry_price
         bar.ts bar.o s.qty] ∧
     (execPending settings bar s).qty = 0) := by
  unfold execPending
  cases s.pending with
  | None => exact Or.inl ⟨rfl, rfl, rfl⟩
  | Buy =>
    dsimp only
    repeat' split
    all_goals first
      | exact Or.inl ⟨rfl, rfl, rfl⟩
      | (rename_i h
         exact Or.inr (Or.inl ⟨rfl, h, rfl⟩))
  | Sell =>
    dsimp only
    split
    · rename_i h
      exact Or.inr (Or.inr ⟨h, rfl, rfl⟩)
    · exact Or.inl ⟨rfl, rfl, rfl⟩

theorem stepBar_trade_fields (candles : List Candle) (params : SmaParams)
    (settings : BacktestSettings) (n i : ℕ) (s : EngineState) :
    (stepBar candles params settings n i s).trades =
      (execPending settings (candles.getD i default) s).trades ∧
    (stepBar candles params settings n i s).qty =
      (execPending settings (candles.getD i default) s).qty ∧
    (stepBar candles params settings n i s).open_entry_time =
      (execPending settings (candles.getD i default) s).open_entry_time := by
  rw [stepBar, markEquity]
  dsimp only
  refine ⟨?_, ?_, ?_⟩
  · rw [(riskStep_preserves _ _ _ _ _).2.2.2.1,
      (signalStep_preserves _ _ _ _).2.2.2.1]
    exact (updateSums_preserves _ _ _ _ _).2.2.2.1
  · rw [(riskStep_preserves _ _ _ _ _).2.1,
      (signalStep_preserves _ _ _ _).2.1]
    exact (updateSums_preserves _ _ _ _ _).2.1
  · rw [(riskStep_preserves _ _ _ _ _).2.2.2.2.1,
      (signalStep_preserves _ _ _ _).2.2.2.2.1]
    exact (updateSums_preserves _ _ _ _ _).2.2.2.2.1

/-- The bar-loop invariant of the trade ledger: every recorded trade
has positive quantity and an entry at or before its exit; exits are
non-decreasing; the initial state is flat with nothing pending; and
after bar `i0` every exit — and the open entry, while long — is bounded
by bar `i0`'s timestamp. -/
theorem loopTo_trades_inv (candles : List Candle) (params : SmaParams)
    (settings : BacktestSettings)
    (hasc : List.Pairwise (fun a b : Candle => a.ts < b.ts) candles) :
    ∀ i, i ≤ candles.length →
      (∀ t ∈ (loopTo candles params settings i).trades,
        0 < t.qty ∧ t.entry_time ≤ t.exit_time) ∧
      List.Pairwise (fun a b : Trade => a.exit_time ≤ b.exit_time)
        (loopTo candles params settings i).trades ∧
      (i = 0 → (loopTo candles params settings i).trades = [] ∧
        (loopTo candles params settings i).qty = 0) ∧
      (∀ i0, i = i0 + 1 →
        (∀ t ∈ (loopTo candles params settings i).trades,
          t.exit_time ≤ (candles.getD i0 default).ts) ∧
        (0 < (loopTo candles params settings i).qty →
          (loopTo candles params settings i).open_entry_time ≤
            (candles.getD i0 default).ts)) := by
  intro i
  induction i with
  | zero =>
    intro _
    refine ⟨?_, List.Pairwise.nil, fun _ => ⟨rfl, rfl⟩, ?_⟩
    · intro t ht
      exact absurd ht (List.not_mem_nil t)
    · intro i0 h
      exact absurd h (by omega)
  | succ i ih =>
    intro hle
    obtain ⟨ih1, ih2, ih3, ih4⟩ := ih (by omega)
    obtain ⟨hT, hQ, hO⟩ := stepBar_trade_fields candles params settings
      candles.length i (loopTo candles params settings i)
    have hstep : loopTo candles params settings (i + 1) =
        stepBar candles params settings candles.length i
          (loopTo candles params settings i) := by
      rw [loopTo]
    -- the exit bound carried from the previous state, extended to bar i
    have hbound : (∀ t ∈ (loopTo candles params settings i).trades,
        t.exit_time ≤ (candles.getD i default).ts) ∧
        (0 < (loopTo candles params settings i).qty →
          (loopTo candles params settings i).open_entry_time ≤
            (candles.getD i default).ts) := by
      cases i with
      | zero =>
        obtain ⟨h1, h2⟩ := ih3 rfl
        constructor
        · intro t ht
          rw [h1] at ht
          exact absurd ht (List.not_mem_nil t)
        · intro hq
          rw [h2] at hq
          exact absurd hq (by omega)
      | succ j =>
        obtain ⟨h1, h2⟩ := ih4 j rfl
        have hadj : (candles.getD j default).ts <
            (candles.getD (j + 1) default).ts :=
          ts_adj candles hasc j (by omega)
        constructor
        · intro t ht
          exact le_trans (h1 t ht) hadj.le
        · intro hq
          exact le_trans (h2 hq) hadj.le
    rcases execPending_spec settings (candles.getD i default)
        (loopTo candles params settings i) with
      ⟨he1, he2, he3⟩ | ⟨he1, he2, he3⟩ | ⟨hq0, he1, he2⟩
    · rw [hstep]
      rw [he1] at hT
      rw [he2] at hQ
      rw [he3] at hO
      refine ⟨by rw [hT]; exact ih1, by rw [hT]; exact ih2,
        fun h => absurd h (by omega), ?_⟩
      intro i0 h
      have hi0 : i0 = i := by omega
      subst hi0
      rw [hT, hQ, hO]
      exact hbound
    · rw [hstep]
      rw [he1] at hT
      rw [he3] at hO
      refine ⟨by rw [hT]; exact ih1, by rw [hT]; exact ih2,
        fun h => absurd h (by omega), ?_⟩
      intro i0 h
      have hi0 : i0 = i := by omega
      subst hi0
      rw [hT, hO]
      exact ⟨hbound.1, fun _ => le_refl _⟩
    · rw [hstep]
      rw [he1] at hT
      rw [he2] at hQ
      -- the entry bound for the new trade
      have hentry : (loopTo candles params settings i).open_entry_time ≤
          (candles.getD i default).ts := by
        cases i with
        | zero =>
          obtain ⟨-, h2⟩ := ih3 rfl
          rw [h2] at hq0
          exact absurd hq0 (by omega)
        | succ j =>
          obtain ⟨-, h2⟩ := ih4 j rfl
          have hadj : (candles.getD j default).ts <
              (candles.getD (j + 1) default).ts :=
            ts_adj candles hasc j (by omega)
          exact le_trans (h2 hq0) hadj.le
      refine ⟨?_, ?_, fun h => absurd h (by omega), ?_⟩
      · intro t ht
        rw [hT] at ht
        rcases List.mem_append.mp ht with ht' | ht'
        · exact ih1 t ht'
        · rcases List.mem_singleton.mp ht' with rfl
          exact ⟨hq0, hentry⟩
      · rw [hT]
        rw [List.pairwise_append]
        refine ⟨ih2, List.pairwise_singleton _ _, ?_⟩
        intro a ha b hb
        rcases List.mem_singleton.mp hb with rfl
        exact hbound.1 a ha
      · intro i0 h
        have hi0 : i0 = i := by omega
        subst hi0
        constructor
        · intro t ht
          rw [hT] at ht
          rcases List.mem_append.mp ht with ht' | ht'
          · exact hbound.1 t ht'
          · rcases List.mem_singleton.mp ht' with rfl
            exact le_refl _
        · intro hq
          rw [hQ] at hq
          exact absurd hq (by omega)

/-- C9: on a series with strictly ascending timestamps and valid
candles, every recorded trade has positive quantity and
`entry_time ≤ exit_time`, and the ledger is ordered by non-decreasing
exit time; a trade is only recorded when a held position of positive
quantity is closed (its quantity is that position's). -/
theorem run_trades_invariants (candles : List Candle) (params : SmaParams)
    (settings : BacktestSettings)
    (hasc : List.Pairwise (fun a b : Candle => a.ts < b.ts) candles)
    (_hcand : ∀ c ∈ candles,
      0 < c.o ∧ 0 < c.h ∧ 0 < c.l ∧ 0 < c.c ∧ 0 ≤ c.v) :
    (∀ t ∈ (run_sma_backtest candles params settings).trades,
      0 < t.qty ∧ t.entry_time ≤ t.exit_time) ∧
    List.Pairwise (fun a b : Trade => a.exit_time ≤ b.exit_time)
      (run_sma_backtest candles params settings).trades := by
  by_cases hne : candles = []
  · rw [run_sma_backtest, if_pos hne]
    exact ⟨fun t ht => absurd ht (List.not_mem_nil t), List.Pairwise.nil⟩
  · by_cases hv : params.is_valid = false
    · rw [run_sma_backtest, if_neg hne, if_pos hv]
      exact ⟨fun t ht => absurd ht (List.not_mem_nil t), List.Pairwise.nil⟩
    · rw [run_sma_backtest, if_neg hne, if_neg hv]
      dsimp only
      have hn1 : 1 ≤ candles.length := List.length_pos.mpr hne
      obtain ⟨L1, L2, -, L4⟩ := loopTo_trades_inv candles params settings
        hasc candles.length (le_refl _)
      obtain ⟨B1, B2⟩ := L4 (candles.length - 1) (by omega)
      rw [runLoop] at *
      rw [forceClose]
      split
      · rename_i hq
        dsimp only
        rw [getLastD_eq_getD]
        constructor
        · intro t ht
          rcases List.mem_append.mp ht with ht' | ht'
          · exact L1 t ht'
          · rcases List.mem_singleton.mp ht' with rfl
            exact ⟨hq, B2 hq⟩
        · rw [List.pairwise_append]
          refine ⟨L2, List.pairwise_singleton _ _, ?_⟩
          intro a ha b hb
          rcases List.mem_singleton.mp hb with rfl
          exact B1 a ha
      · exact ⟨L1, L2⟩

/-- Witness for C9 at a concrete two-candle series. -/
theorem run_trades_invariants_witness :
    (∀ t ∈ (run_sma_backtest [⟨1, 10, 10, 10, 10, 0⟩, ⟨2, 11, 11, 11, 11, 0⟩]
        ⟨2, 3⟩ ⟨10000, 0, 1, 0, 0⟩).trades,
      0 < t.qty ∧ t.entry_time ≤ t.exit_time) ∧
    List.Pairwise (fun a b : Trade => a.exit_time ≤ b.exit_time)
      (run_sma_backtest [⟨1, 10, 10, 10, 10, 0⟩, ⟨2, 11, 11, 11, 11, 0⟩]
        ⟨2, 3⟩ ⟨10000, 0, 1, 0, 0⟩).trades :=
  run_trades_invariants [⟨1, 10, 10, 10, 10, 0⟩, ⟨2, 11, 11, 11, 11, 0⟩]
    ⟨2, 3⟩ ⟨10000, 0, 1, 0, 0⟩
    (by simp)
    (by intro c hc
        rcases List.mem_cons.mp hc with rfl | hc'
        · refine ⟨by norm_num, by norm_num, by norm_num, by norm_num,
            by norm_num⟩
        · rcases List.mem_singleton.mp hc' with rfl
          refine ⟨by norm_num, by norm_num, by norm_num, by norm_num,
            by norm_num⟩)

end Stockbt
